import Mathlib

/-!
Verification of the energia-demo response cache, demo-mode decision logic,
image-hash normalization, vision-reply parser and the analyze-image API
handler, as a shallow embedding of `src/energia-demo/lib/cache/index.ts`,
`src/energia-demo/lib/demoMode/index.ts` and
`src/energia-demo/pages/api/analyze-image.ts`.

Machine integers are modeled as `Nat` (timestamps are milliseconds since the
epoch; the values involved are far below 2^53 so JS number arithmetic on them
is exact).  JS `Record<string, CacheEntry>` objects are modeled as insertion
- ordered association lists with distinct keys, which matches JS object key
ordering and in-place update semantics.
-/

namespace Energia

/-- Source tag of a cache entry (`'api' | 'demo' | 'fallback'` in the source). -/
inductive CacheSource where
  | api
  | demo
  | fallback
deriving DecidableEq, Repr

/-- Cache operation type (`'analyze' | 'future' | 'futureImage'`). -/
inductive CacheType where
  | analyze
  | future
  | futureImage
deriving DecidableEq, Repr

/-- Possible cache entry states (`'hit' | 'miss' | 'expired' | 'stale'`). -/
inductive CacheStatus where
  | hit
  | miss
  | expired
  | stale
deriving DecidableEq, Repr

/-- A cache entry.  `data` is the cached JSON payload, modeled by its
serialized form (the source stores it as an arbitrary JS value and never
inspects it, so any type with decidable equality is faithful). -/
structure CacheEntry where
  data : String
  timestamp : Nat
  hits : Nat
  source : CacheSource
  expiresAt : Nat
deriving DecidableEq, Repr

/-- One cache category: a JS `Record<string, CacheEntry>`, modeled as an
insertion-ordered association list. -/
abbrev CacheMap := List (String × CacheEntry)

/-- The in-memory cache: one `Record` per operation type. -/
structure CacheState where
  analyze : CacheMap
  future : CacheMap
  futureImage : CacheMap
deriving DecidableEq, Repr

/-- Project the record for one cache type (the source writes `cache[type]`). -/
def CacheState.get (st : CacheState) : CacheType → CacheMap
  | .analyze => st.analyze
  | .future => st.future
  | .futureImage => st.futureImage

/-- Replace the record for one cache type. -/
def CacheState.set (st : CacheState) : CacheType → CacheMap → CacheState
  | .analyze, m => { st with analyze := m }
  | .future, m => { st with future := m }
  | .futureImage, m => { st with futureImage := m }

/-- Lookup `cache[type][hash]` (JS property read; `undefined` becomes `none`). -/
def findEntry : CacheMap → String → Option CacheEntry
  | [], _ => none
  | (k, e) :: rest, h => if k = h then some e else findEntry rest h

/-- Assignment `cache[type][hash] = entry`: replaces in place when the key
exists (JS keeps the original insertion position) and appends otherwise. -/
def setEntry : CacheMap → String → CacheEntry → CacheMap
  | [], h, e => [(h, e)]
  | (k, e') :: rest, h, e =>
      if k = h then (h, e) :: rest else (k, e') :: setEntry rest h e

/-- Statement `delete cache[type][hash]` (removes the key's binding). -/
def eraseEntry : CacheMap → String → CacheMap
  | [], _ => []
  | (k, e') :: rest, h => if k = h then rest else (k, e') :: eraseEntry rest h

/-- `CACHE_CONFIG.TTL.analyze`: 24 hours in milliseconds. -/
def TTL_analyze : Nat := 1000 * 60 * 60 * 24

/-- `CACHE_CONFIG.TTL.future`: 3 days for future projections. -/
def TTL_future : Nat := 1000 * 60 * 60 * 24 * 3

/-- `CACHE_CONFIG.TTL.futureImage`: 7 days for generated images. -/
def TTL_futureImage : Nat := 1000 * 60 * 60 * 24 * 7

/-- `CACHE_CONFIG.TTL.demo`: 30 days for demo data. -/
def TTL_demo : Nat := 1000 * 60 * 60 * 24 * 30

/-- `CACHE_CONFIG.TTL.fallback`: 30 days for fallback data. -/
def TTL_fallback : Nat := 1000 * 60 * 60 * 24 * 30

/-- `CACHE_CONFIG.MAX_ENTRIES`: maximum entries in each cache category. -/
def MAX_ENTRIES : Nat := 100

/-- `CACHE_CONFIG.VERSION`: cache version tag used by the persistence layer. -/
def CACHE_VERSION : String := "1.0"

/-- Per-type TTL lookup `CACHE_CONFIG.TTL[type]`. -/
def ttlOfType : CacheType → Nat
  | .analyze => TTL_analyze
  | .future => TTL_future
  | .futureImage => TTL_futureImage

/-- `getTTL(type, source)`: the TTL for a new entry, from its source and type. -/
def getTTL (type : CacheType) (source : CacheSource) : Nat :=
  if source = .demo then TTL_demo
  else if source = .fallback then TTL_fallback
  else ttlOfType type

/-- `getCacheEntryStatus(entry)` for a present entry: `expired` once `now`
has passed `expiresAt`, otherwise `hit` (the `!entry` guard of the source is
the caller's `none` case, handled at the call site). -/
def getCacheEntryStatus (now : Nat) (e : CacheEntry) : CacheStatus :=
  if e.expiresAt < now then .expired else .hit

/-- `getCachedResponseWithStatus(type, imageHash)`.  `demoMode` is
`CACHE_CONFIG.DEMO_MODE` and `now` is `Date.now()`.  Returns the
`{status, data}` pair together with the mutated cache. -/
def getCachedResponseWithStatus (demoMode : Bool) (now : Nat) (st : CacheState)
    (type : CacheType) (imageHash : String) :
    (CacheStatus × Option String) × CacheState :=
  match findEntry (st.get type) imageHash with
  | none => ((.miss, none), st)
  | some e =>
    match getCacheEntryStatus now e with
    | .expired =>
      if demoMode || e.source = .demo || e.source = .fallback then
        ((.stale, some e.data),
          st.set type (setEntry (st.get type) imageHash { e with hits := e.hits + 1 }))
      else
        ((.expired, none), st.set type (eraseEntry (st.get type) imageHash))
    | _ =>
      ((.hit, some e.data),
        st.set type (setEntry (st.get type) imageHash { e with hits := e.hits + 1 }))

/-- `cacheResponse(type, imageHash, data, source)`: stores a fresh entry with
`hits = 1` and `expiresAt = now + getTTL(type, source)`. -/
def cacheResponse (now : Nat) (st : CacheState) (type : CacheType)
    (imageHash : String) (data : String) (source : CacheSource) : CacheState :=
  st.set type (setEntry (st.get type) imageHash
    { data := data, timestamp := now, hits := 1, source := source,
      expiresAt := now + getTTL type source })

/-- The sort comparator of `cleanCacheCategory` (returns the JS comparator's
integer): demo entries sort to the end (kept), then fallback, then ascending
hit count, finally ascending timestamp (oldest first, removed first). -/
def entryCmp (a b : String × CacheEntry) : Int :=
  if a.2.source ≠ b.2.source then
    if a.2.source = .demo then 1
    else if b.2.source = .demo then -1
    else if a.2.source = .fallback then 1
    else if b.2.source = .fallback then -1
    else 0
  else if a.2.hits ≠ b.2.hits then (a.2.hits : Int) - (b.2.hits : Int)
  else (a.2.timestamp : Int) - (b.2.timestamp : Int)

/-- Stable insertion of one element into an already-sorted list: the new
element goes after every element that compares `≤ 0` against it. -/
def insertByCmp (x : String × CacheEntry) :
    List (String × CacheEntry) → List (String × CacheEntry)
  | [] => [x]
  | y :: rest =>
      if entryCmp y x ≤ 0 then y :: insertByCmp x rest else x :: y :: rest

/-- `entries.sort(comparator)`: JS `Array.prototype.sort` with a consistent
comparator is a stable sort; modeled as a stable insertion sort. -/
def sortEntries (l : List (String × CacheEntry)) : List (String × CacheEntry) :=
  l.foldl (fun acc x => insertByCmp x acc) []

/-- Step 2 of `cleanCacheCategory`, applied to the record left by the expiry
sweep: when aggressive and more than `MAX_ENTRIES` entries remain, the
entries are sorted by the comparator and the excess lowest-priority prefix is
deleted by key. -/
def cleanCachePhase2 (aggressive : Bool) (m1 : CacheMap) : CacheMap :=
  if aggressive && decide (MAX_ENTRIES < m1.length) then
    m1.filter (fun ke =>
      !(((sortEntries m1).take (m1.length - MAX_ENTRIES)).any
          (fun r => r.1 == ke.1)))
  else m1

/-- `cleanCacheCategory(type, aggressive)` on one category record.  Step 1
removes every entry past `expiresAt`; step 2 is the aggressive capacity
eviction above. -/
def cleanCacheCategory (aggressive : Bool) (now : Nat) (m : CacheMap) : CacheMap :=
  cleanCachePhase2 aggressive (m.filter (fun ke => !(decide (ke.2.expiresAt < now))))

/-- `cleanupCache(force)`: in demo mode and not forced, only expired entries
are cleaned from the `analyze` and `future` categories; otherwise both get
the aggressive treatment.  The `futureImage` category is never touched. -/
def cleanupCache (demoMode force : Bool) (now : Nat) (st : CacheState) : CacheState :=
  if demoMode && !force then
    { st with analyze := cleanCacheCategory false now st.analyze,
              future := cleanCacheCategory false now st.future }
  else
    { st with analyze := cleanCacheCategory true now st.analyze,
              future := cleanCacheCategory true now st.future }

/-- The parsed content of the `energiaCache` local-storage key:
`{version, timestamp, data}` (the `timestamp` metadata field is never read
back by `loadCacheFromStorage`, so it is omitted). -/
structure StoredCache where
  version : String
  data : CacheState

/-- Merge loop of `loadCacheFromStorage` for one category: each stored entry
is added only when the in-memory record has no binding for its key
(`if (!cache.analyze[key])`), appending at the end in stored order. -/
def mergeMissing (cur stored : CacheMap) : CacheMap :=
  stored.foldl
    (fun acc kv => if (findEntry acc kv.1).isSome then acc else acc ++ [kv]) cur

/-- `loadCacheFromStorage()`.  The stored string is modeled after parsing:
`none` = no stored item, `some none` = `JSON.parse` failure (the catch
branch), `some (some sc)` = a parsed snapshot.  Returns the new in-memory
cache and whether `localStorage.removeItem` was called on the storage key.
A version mismatch discards the stored cache wholesale; otherwise only the
`analyze` and `future` categories are merged, preserving in-memory entries. -/
def loadCacheFromStorage (stored : Option (Option StoredCache))
    (st : CacheState) : CacheState × Bool :=
  match stored with
  | none => (st, false)
  | some none => (st, true)
  | some (some sc) =>
    if sc.version ≠ CACHE_VERSION then (st, true)
    else
      ({ st with analyze := mergeMissing st.analyze sc.data.analyze,
                 future := mergeMissing st.future sc.data.future }, false)

lemma get_set_self (st : CacheState) (t : CacheType) (m : CacheMap) :
    (st.set t m).get t = m := by
  cases t <;> simp [CacheState.get, CacheState.set]

lemma get_set_ne (st : CacheState) (t t' : CacheType) (m : CacheMap)
    (hne : t' ≠ t) : (st.set t m).get t' = st.get t' := by
  cases t <;> cases t' <;> simp_all [CacheState.get, CacheState.set]

lemma findEntry_setEntry_self (m : CacheMap) (h : String) (e : CacheEntry) :
    findEntry (setEntry m h e) h = some e := by
  induction m with
  | nil => simp [setEntry, findEntry]
  | cons ke rest ih =>
    by_cases hk : ke.1 = h
    · simp [setEntry, findEntry, hk]
    · simp [setEntry, findEntry, hk, ih]

lemma findEntry_setEntry_ne (m : CacheMap) (h k : String) (e : CacheEntry)
    (hne : k ≠ h) : findEntry (setEntry m h e) k = findEntry m k := by
  induction m with
  | nil => simp [setEntry, findEntry, Ne.symm hne]
  | cons ke rest ih =>
    by_cases hk : ke.1 = h
    · subst hk
      simp [setEntry, findEntry, hne, Ne.symm hne]
    · simp [setEntry, findEntry, hk, ih]

lemma findEntry_eq_none_of_not_mem (m : CacheMap) (h : String)
    (hmem : h ∉ m.map Prod.fst) : findEntry m h = none := by
  induction m with
  | nil => rfl
  | cons ke rest ih =>
    simp only [List.map_cons, List.mem_cons] at hmem
    push_neg at hmem
    simp [findEntry, Ne.symm hmem.1, ih hmem.2]

lemma findEntry_eraseEntry_self (m : CacheMap) (h : String)
    (hnd : (m.map Prod.fst).Nodup) : findEntry (eraseEntry m h) h = none := by
  induction m with
  | nil => rfl
  | cons ke rest ih =>
    simp only [List.map_cons, List.nodup_cons] at hnd
    by_cases hk : ke.1 = h
    · subst hk
      simpa [eraseEntry] using findEntry_eq_none_of_not_mem rest ke.1 hnd.1
    · simp [eraseEntry, findEntry, hk, ih hnd.2]

lemma findEntry_eraseEntry_ne (m : CacheMap) (h k : String)
    (hne : k ≠ h) : findEntry (eraseEntry m h) k = findEntry m k := by
  induction m with
  | nil => rfl
  | cons ke rest ih =>
    by_cases hk : ke.1 = h
    · subst hk
      simp [eraseEntry, findEntry, Ne.symm hne]
    · simp [eraseEntry, findEntry, hk, ih]

/-- C9.  Every entry written by `cacheResponse` has `timestamp = now`,
`hits = 1` and `expiresAt = now + getTTL(type, source)`; the TTL table gives
`analyze` a shorter TTL than `future` and `futureImage`, and demo- or
fallback-sourced entries receive the longest TTL of the whole table,
regardless of operation type. -/
theorem c9_put_ttl_invariant (now : Nat) (st : CacheState) (t : CacheType)
    (h data : String) (s : CacheSource) :
    findEntry ((cacheResponse now st t h data s).get t) h =
      some { data := data, timestamp := now, hits := 1, source := s,
             expiresAt := now + getTTL t s }
    ∧ getTTL .analyze .api < getTTL .future .api
    ∧ getTTL .analyze .api < getTTL .futureImage .api
    ∧ ∀ (t' t'' : CacheType) (s' : CacheSource),
        getTTL t'' s' ≤ getTTL t' .demo ∧ getTTL t'' s' ≤ getTTL t' .fallback := by
  refine ⟨?_, by decide, by decide, ?_⟩
  · rw [cacheResponse, get_set_self, findEntry_setEntry_self]
  · intro t' t'' s'
    cases t' <;> cases t'' <;> cases s' <;> exact ⟨by decide, by decide⟩

/-- C4.  A `cacheResponse` followed by a `getCachedResponseWithStatus` before
the TTL has elapsed returns `status = hit` with exactly the stored data. -/
theorem c4_put_get_roundtrip (demoMode : Bool) (now now' : Nat)
    (st : CacheState) (t : CacheType) (h data : String) (s : CacheSource)
    (hfresh : now' ≤ now + getTTL t s) :
    (getCachedResponseWithStatus demoMode now'
        (cacheResponse now st t h data s) t h).1 = (.hit, some data) := by
  have hfind := (c9_put_ttl_invariant now st t h data s).1
  rw [getCachedResponseWithStatus, hfind]
  simp [getCacheEntryStatus, Nat.not_lt.mpr hfresh]

/-- Witness for C4 at a concrete input. -/
theorem c4_put_get_roundtrip_witness :
    (getCachedResponseWithStatus false 5
        (cacheResponse 5 { analyze := [], future := [], futureImage := [] }
          .analyze "k" "payload" .api) .analyze "k").1 = (.hit, some "payload") :=
  c4_put_get_roundtrip false 5 5 _ .analyze "k" "payload" .api (by decide)

/-- C3.  Reading an entry whose `expiresAt` has passed returns
`status = expired` with no data when the source is `api` and the demo flag is
off, but `status = stale` with the stored data when the source is `demo` or
`fallback` or the demo flag is set. -/
theorem c3_expired_vs_stale (demoMode : Bool) (now : Nat) (st : CacheState)
    (t : CacheType) (h : String) (e : CacheEntry)
    (hfind : findEntry (st.get t) h = some e)
    (hexp : e.expiresAt < now) :
    (e.source = .api → demoMode = false →
      (getCachedResponseWithStatus demoMode now st t h).1 = (.expired, none))
    ∧ ((demoMode = true ∨ e.source = .demo ∨ e.source = .fallback) →
      (getCachedResponseWithStatus demoMode now st t h).1 = (.stale, some e.data)) := by
  constructor
  · intro hsrc hdm
    rw [getCachedResponseWithStatus, hfind]
    simp [getCacheEntryStatus, hexp, hsrc, hdm]
  · intro hp
    rw [getCachedResponseWithStatus, hfind]
    rcases hp with h1 | h1 | h1 <;> simp [getCacheEntryStatus, hexp, h1]

/-- Witness for C3: a concrete expired api entry misses (demo flag off) and a
concrete expired demo entry is served stale. -/
theorem c3_expired_vs_stale_witness :
    (getCachedResponseWithStatus false 11
        { analyze := [("h", { data := "a", timestamp := 0, hits := 0,
                              source := .api, expiresAt := 10 })],
          future := [], futureImage := [] } .analyze "h").1 = (.expired, none)
    ∧ (getCachedResponseWithStatus false 11
        { analyze := [("h", { data := "d", timestamp := 0, hits := 0,
                              source := .demo, expiresAt := 10 })],
          future := [], futureImage := [] } .analyze "h").1 = (.stale, some "d") :=
  ⟨(c3_expired_vs_stale false 11
      { analyze := [("h", { data := "a", timestamp := 0, hits := 0,
                            source := .api, expiresAt := 10 })],
        future := [], futureImage := [] } .analyze "h"
      { data := "a", timestamp := 0, hits := 0, source := .api, expiresAt := 10 }
      rfl (by decide)).1 rfl rfl,
   (c3_expired_vs_stale false 11
      { analyze := [("h", { data := "d", timestamp := 0, hits := 0,
                            source := .demo, expiresAt := 10 })],
        future := [], futureImage := [] } .analyze "h"
      { data := "d", timestamp := 0, hits := 0, source := .demo, expiresAt := 10 }
      rfl (by decide)).2 (Or.inr (Or.inl rfl))⟩

/-- C8.  A stored snapshot whose version tag differs from the running version
is discarded entirely: the storage key is removed and the in-memory cache is
returned unchanged, with no migration attempted. -/
theorem c8_version_mismatch_discards (sc : StoredCache) (st : CacheState)
    (hv : sc.version ≠ CACHE_VERSION) :
    loadCacheFromStorage (some (some sc)) st = (st, true) := by
  simp [loadCacheFromStorage, hv]

/-- Witness for C8 at a concrete stored snapshot with version `"0.9"`. -/
theorem c8_version_mismatch_discards_witness :
    loadCacheFromStorage
      (some (some { version := "0.9",
                    data := { analyze := [("k", { data := "x", timestamp := 0,
                                                  hits := 0, source := .demo,
                                                  expiresAt := 99 })],
                              future := [], futureImage := [] } }))
      { analyze := [], future := [], futureImage := [] } =
      ({ analyze := [], future := [], futureImage := [] }, true) :=
  c8_version_mismatch_discards _ _ (by decide)

/-- C10.  Frame conditions of a lookup: an expired, unprotected entry is
deleted (so an immediately repeated lookup misses), while a `hit` or `stale`
lookup bumps the entry's hit counter by exactly one, leaving its other fields
and every other cache entry untouched. -/
theorem c10_get_frame (demoMode : Bool) (now : Nat) (st : CacheState)
    (t : CacheType) (h : String)
    (hnd : ((st.get t).map Prod.fst).Nodup) :
    (∀ e, findEntry (st.get t) h = some e → e.expiresAt < now →
      e.source = .api → demoMode = false →
      findEntry (((getCachedResponseWithStatus demoMode now st t h).2).get t) h = none
      ∧ (∀ now', (getCachedResponseWithStatus demoMode now'
            (getCachedResponseWithStatus demoMode now st t h).2 t h).1 = (.miss, none))
      ∧ (∀ k, k ≠ h →
          findEntry (((getCachedResponseWithStatus demoMode now st t h).2).get t) k =
            findEntry (st.get t) k)
      ∧ (∀ t', t' ≠ t →
          ((getCachedResponseWithStatus demoMode now st t h).2).get t' = st.get t'))
    ∧ (∀ e, findEntry (st.get t) h = some e →
      ((getCachedResponseWithStatus demoMode now st t h).1.1 = .hit ∨
       (getCachedResponseWithStatus demoMode now st t h).1.1 = .stale) →
      findEntry (((getCachedResponseWithStatus demoMode now st t h).2).get t) h =
        some { e with hits := e.hits + 1 }
      ∧ (∀ k, k ≠ h →
          findEntry (((getCachedResponseWithStatus demoMode now st t h).2).get t) k =
            findEntry (st.get t) k)
      ∧ (∀ t', t' ≠ t →
          ((getCachedResponseWithStatus demoMode now st t h).2).get t' = st.get t')) := by
  constructor
  · intro e hfind hexp hsrc hdm
    have hres : (getCachedResponseWithStatus demoMode now st t h).2 =
        st.set t (eraseEntry (st.get t) h) := by
      rw [getCachedResponseWithStatus, hfind]
      simp [getCacheEntryStatus, hexp, hsrc, hdm]
    refine ⟨?_, ?_, ?_, ?_⟩
    · rw [hres, get_set_self, findEntry_eraseEntry_self _ _ hnd]
    · intro now'
      rw [getCachedResponseWithStatus, hres, get_set_self,
        findEntry_eraseEntry_self _ _ hnd]
    · intro k hk
      rw [hres, get_set_self, findEntry_eraseEntry_ne _ _ _ hk]
    · intro t' ht'
      rw [hres, get_set_ne _ _ _ _ ht']
  · intro e hfind hstat
    have hres : (getCachedResponseWithStatus demoMode now st t h).2 =
        st.set t (setEntry (st.get t) h { e with hits := e.hits + 1 }) := by
      by_cases hexp : e.expiresAt < now
      · by_cases hcond : (demoMode || e.source = .demo || e.source = .fallback : Bool)
        · rw [getCachedResponseWithStatus, hfind]
          simp only [getCacheEntryStatus, hexp, if_true]
          rw [if_pos]
          simpa using hcond
        · exfalso
          rw [getCachedResponseWithStatus, hfind] at hstat
          simp only [getCacheEntryStatus, hexp, if_true] at hstat
          rw [if_neg (by simpa using hcond)] at hstat
          simp at hstat
      · rw [getCachedResponseWithStatus, hfind]
        simp [getCacheEntryStatus, hexp]
    refine ⟨?_, ?_, ?_⟩
    · rw [hres, get_set_self, findEntry_setEntry_self]
    · intro k hk
      rw [hres, get_set_self, findEntry_setEntry_ne _ _ _ _ hk]
    · intro t' ht'
      rw [hres, get_set_ne _ _ _ _ ht']

/-- Witness for C10: a concrete expired api entry is deleted and re-misses,
and a concrete fresh entry has its hit counter bumped to 3. -/
theorem c10_get_frame_witness :
    (getCachedResponseWithStatus false 0
      (getCachedResponseWithStatus false 11
        { analyze := [("h", { data := "a", timestamp := 0, hits := 0,
                              source := .api, expiresAt := 10 })],
          future := [], futureImage := [] } .analyze "h").2 .analyze "h").1 =
        (.miss, none)
    ∧ findEntry ((getCachedResponseWithStatus false 5
        { analyze := [("h", { data := "a", timestamp := 0, hits := 2,
                              source := .api, expiresAt := 10 })],
          future := [], futureImage := [] } .analyze "h").2.get .analyze) "h" =
        some { data := "a", timestamp := 0, hits := 3, source := .api,
               expiresAt := 10 } :=
  ⟨((c10_get_frame false 11
      { analyze := [("h", { data := "a", timestamp := 0, hits := 0,
                            source := .api, expiresAt := 10 })],
        future := [], futureImage := [] } .analyze "h" (by decide)).1
      { data := "a", timestamp := 0, hits := 0, source := .api, expiresAt := 10 }
      rfl (by decide) rfl rfl).2.1 0,
   ((c10_get_frame false 5
      { analyze := [("h", { data := "a", timestamp := 0, hits := 2,
                            source := .api, expiresAt := 10 })],
        future := [], futureImage := [] } .analyze "h" (by decide)).2
      { data := "a", timestamp := 0, hits := 2, source := .api, expiresAt := 10 }
      rfl (Or.inl rfl)).1⟩

/-- Priority rank encoded by the comparator's source test: api entries sort
first (removed first), then fallback, then demo. -/
def sourceRank : CacheSource → Nat
  | .api => 0
  | .fallback => 1
  | .demo => 2

/-- The preorder induced by the comparator. -/
def entryLe (a b : String × CacheEntry) : Prop := entryCmp a b ≤ 0

instance : DecidablePred fun p : (String × CacheEntry) × (String × CacheEntry) =>
    entryLe p.1 p.2 := fun p => inferInstanceAs (Decidable (entryCmp p.1 p.2 ≤ 0))

lemma entryLe_total (a b : String × CacheEntry) : entryLe a b ∨ entryLe b a := by
  unfold entryLe entryCmp
  cases hsa : a.2.source <;> cases hsb : b.2.source <;>
    simp <;> split_ifs <;> omega

lemma entryLe_trans {a b c : String × CacheEntry}
    (hab : entryLe a b) (hbc : entryLe b c) : entryLe a c := by
  unfold entryLe entryCmp at hab hbc ⊢
  cases hsa : a.2.source <;> cases hsb : b.2.source <;> cases hsc : c.2.source <;>
    simp_all <;> split_ifs at hab hbc ⊢ <;> omega

lemma entryLe_rank {a b : String × CacheEntry} (h : entryLe a b) :
    sourceRank a.2.source ≤ sourceRank b.2.source := by
  unfold entryLe entryCmp at h
  cases hsa : a.2.source <;> cases hsb : b.2.source <;> simp_all [sourceRank]

lemma sourceRank_eq_zero {s : CacheSource} (h : sourceRank s = 0) : s = .api := by
  cases s <;> simp_all [sourceRank]

lemma insertByCmp_perm (x : String × CacheEntry) (l : List (String × CacheEntry)) :
    List.Perm (insertByCmp x l) (x :: l) := by
  induction l with
  | nil => exact List.Perm.refl _
  | cons y rest ih =>
    unfold insertByCmp
    split
    · exact (ih.cons y).trans (List.Perm.swap x y rest)
    · exact List.Perm.refl _

lemma sortAux_perm (l : List (String × CacheEntry)) :
    ∀ acc, List.Perm (l.foldl (fun acc x => insertByCmp x acc) acc) (l ++ acc) := by
  induction l with
  | nil => intro acc; simp
  | cons x rest ih =>
    intro acc
    simp only [List.foldl_cons, List.cons_append]
    refine ((ih _).trans ?_).trans List.perm_middle
    exact List.Perm.append_left _ (insertByCmp_perm x acc)

lemma sortEntries_perm (l : List (String × CacheEntry)) :
    List.Perm (sortEntries l) l := by
  simpa [sortEntries] using sortAux_perm l []

lemma mem_insertByCmp {z x : String × CacheEntry} {l : List (String × CacheEntry)}
    (h : z ∈ insertByCmp x l) : z = x ∨ z ∈ l := by
  have := (insertByCmp_perm x l).mem_iff.mp h
  simpa using this

lemma insertByCmp_sorted (x : String × CacheEntry)
    {l : List (String × CacheEntry)} (hs : List.Sorted entryLe l) :
    List.Sorted entryLe (insertByCmp x l) := by
  induction l with
  | nil => simp [insertByCmp]
  | cons y rest ih =>
    rw [List.sorted_cons] at hs
    unfold insertByCmp
    split
    · rename_i hyx
      rw [List.sorted_cons]
      refine ⟨?_, ih hs.2⟩
      intro b hb
      rcases mem_insertByCmp hb with hbx | hbr
      · exact hbx ▸ hyx
      · exact hs.1 b hbr
    · rename_i hyx
      have hxy : entryLe x y := (entryLe_total x y).resolve_right hyx
      rw [List.sorted_cons]
      refine ⟨?_, List.sorted_cons.mpr hs⟩
      intro b hb
      rcases List.mem_cons.mp hb with hby | hbr
      · exact hby ▸ hxy
      · exact entryLe_trans hxy (hs.1 b hbr)

lemma sortAux_sorted (l : List (String × CacheEntry)) :
    ∀ acc, List.Sorted entryLe acc →
      List.Sorted entryLe (l.foldl (fun acc x => insertByCmp x acc) acc) := by
  induction l with
  | nil => intro acc h; simpa using h
  | cons x rest ih =>
    intro acc h
    simpa only [List.foldl_cons] using ih _ (insertByCmp_sorted x h)

lemma sortEntries_sorted (l : List (String × CacheEntry)) :
    List.Sorted entryLe (sortEntries l) :=
  sortAux_sorted l [] (by simp)

lemma cleanCat_false (now : Nat) (m : CacheMap) :
    cleanCacheCategory false now m =
      m.filter (fun ke => !(decide (ke.2.expiresAt < now))) := by
  simp [cleanCacheCategory, cleanCachePhase2]

lemma mem_cleanCachePhase2 {ag : Bool} {m1 : CacheMap}
    {ke : String × CacheEntry} (h : ke ∈ cleanCachePhase2 ag m1) : ke ∈ m1 := by
  unfold cleanCachePhase2 at h
  split at h
  · exact (List.mem_filter.mp h).1
  · exact h

lemma mem_cleanCat_unexpired {ag : Bool} {now : Nat} {m : CacheMap}
    {ke : String × CacheEntry} (h : ke ∈ cleanCacheCategory ag now m) :
    now ≤ ke.2.expiresAt := by
  have h1 := mem_cleanCachePhase2 h
  have := (List.mem_filter.mp h1).2
  simp at this
  omega

lemma cleanCachePhase2_true_length (m1 : CacheMap) :
    (cleanCachePhase2 true m1).length ≤ MAX_ENTRIES := by
  unfold cleanCachePhase2
  by_cases hlen : MAX_ENTRIES < m1.length
  · rw [Bool.true_and, if_pos (by simpa using hlen)]
    set K := (sortEntries m1).take (m1.length - MAX_ENTRIES) with hK
    have hperm := sortEntries_perm m1
    have hsub : List.Subperm K m1 :=
      ((List.take_sublist _ _).subperm).trans hperm.subperm
    have hKp : ∀ ke ∈ K, (K.any (fun r => r.1 == ke.1)) = true := fun ke hke =>
      List.any_eq_true.mpr ⟨ke, hke, by simp⟩
    have hsub2 : List.Subperm K
        (m1.filter (fun ke => K.any (fun r => r.1 == ke.1))) := by
      have := hsub.filter (fun ke => K.any (fun r => r.1 == ke.1))
      rwa [List.filter_eq_self.mpr hKp] at this
    have hlenK : K.length = m1.length - MAX_ENTRIES := by
      rw [hK, List.length_take, hperm.length_eq]
      omega
    have hpart :=
      List.length_eq_length_filter_add (l := m1)
        (fun ke => K.any (fun r => r.1 == ke.1))
    have hge := hsub2.length_le
    omega
  · rw [Bool.true_and, if_neg (by simpa using hlen)]
    omega

lemma cleanCat_true_length (now : Nat) (m : CacheMap) :
    (cleanCacheCategory true now m).length ≤ MAX_ENTRIES :=
  cleanCachePhase2_true_length _

lemma cleanCachePhase2_true_pref {m1 : CacheMap}
    (hnd1 : (m1.map Prod.fst).Nodup) {a ke : String × CacheEntry}
    (ha : a ∈ cleanCachePhase2 true m1) (hasrc : a.2.source = .api)
    (hkem1 : ke ∈ m1) (hkesrc : ke.2.source ≠ .api) :
    ke ∈ cleanCachePhase2 true m1 := by
  unfold cleanCachePhase2 at ha ⊢
  by_cases hlen : MAX_ENTRIES < m1.length
  · rw [Bool.true_and, if_pos (by simpa using hlen)] at ha ⊢
    set K := (sortEntries m1).take (m1.length - MAX_ENTRIES) with hK
    have hperm := sortEntries_perm m1
    obtain ⟨ham1, hanot⟩ := List.mem_filter.mp ha
    refine List.mem_filter.mpr ⟨hkem1, ?_⟩
    simp only [Bool.not_eq_true']
    by_contra hany
    simp only [Bool.not_eq_false] at hany
    obtain ⟨b, hbK, hbkey⟩ := List.any_eq_true.mp hany
    have hbm1 : b ∈ m1 := hperm.subset (List.mem_of_mem_take hbK)
    have hbke : b = ke := by
      apply List.inj_on_of_nodup_map hnd1 hbm1 hkem1
      simpa using hbkey
    subst hbke
    have hanotK : a ∉ K := by
      intro haK
      have : (K.any (fun r => r.1 == a.1)) = true :=
        List.any_eq_true.mpr ⟨a, haK, by simp⟩
      simp [this] at hanot
    have hasorted : a ∈ sortEntries m1 := hperm.mem_iff.mpr ham1
    have hadrop : a ∈ (sortEntries m1).drop (m1.length - MAX_ENTRIES) := by
      have h2 := (List.take_append_drop (m1.length - MAX_ENTRIES)
        (sortEntries m1)) ▸ hasorted
      rcases List.mem_append.mp h2 with h1 | h1
      · exact absurd h1 hanotK
      · exact h1
    have hpw : List.Pairwise entryLe
        ((sortEntries m1).take (m1.length - MAX_ENTRIES) ++
         (sortEntries m1).drop (m1.length - MAX_ENTRIES)) := by
      have := sortEntries_sorted m1
      rwa [List.take_append_drop]
    have hle : entryLe b a :=
      (List.pairwise_append.mp hpw).2.2 b hbK a hadrop
    have hrank := entryLe_rank hle
    rw [hasrc] at hrank
    simp only [sourceRank] at hrank
    exact hkesrc (sourceRank_eq_zero (Nat.le_zero.mp hrank))
  · rw [Bool.true_and, if_neg (by simpa using hlen)]
    exact hkem1

lemma cleanCat_true_pref (now : Nat) (m : CacheMap)
    (hnd : (m.map Prod.fst).Nodup) :
    ∀ a ∈ cleanCacheCategory true now m, a.2.source = .api →
    ∀ ke ∈ m, ke.2.source ≠ .api → now ≤ ke.2.expiresAt →
      ke ∈ cleanCacheCategory true now m := by
  intro a ha hasrc ke hke hkesrc hkeexp
  have hnd1 : ((m.filter
      (fun ke => !(decide (ke.2.expiresAt < now)))).map Prod.fst).Nodup :=
    ((List.filter_sublist m).map Prod.fst).nodup hnd
  have hkem1 : ke ∈ m.filter (fun ke => !(decide (ke.2.expiresAt < now))) :=
    List.mem_filter.mpr ⟨hke, by simp; omega⟩
  exact cleanCachePhase2_true_pref hnd1 ha hasrc hkem1 hkesrc

/-- C2 counterexample.  The claim protects expired `demo`/`fallback` entries
(and everything when the demo flag is set) from the expiry sweep, but
`cleanCacheCategory` deletes every entry past `expiresAt` unconditionally:
with the demo flag set and no force, an expired demo-sourced entry is
dropped. -/
theorem c2_eviction_counterexample :
    (cleanupCache true false 11
      { analyze := [("h", { data := "d", timestamp := 0, hits := 5,
                            source := .demo, expiresAt := 10 })],
        future := [], futureImage := [] }).analyze = [] := by
  rfl

/-- C2 (amended).  Eviction is two-phase, but phase 1 drops all entries past
`expiresAt` regardless of source or demo flag; the aggressive phase applies
only when the demo flag is off or the cleanup is forced, and only to the
`analyze` and `future` categories (`futureImage` is never cleaned); after an
aggressive pass those two categories hold at most `MAX_ENTRIES` entries; and
whenever an api-sourced entry survives an aggressive pass, every unexpired
demo- or fallback-sourced entry of that category survives too (eviction is
total, so it cannot raise an error). -/
theorem c2_eviction_amended (demoMode force : Bool) (now : Nat)
    (st : CacheState)
    (hndA : (st.analyze.map Prod.fst).Nodup)
    (hndF : (st.future.map Prod.fst).Nodup) :
    (∀ ke ∈ (cleanupCache demoMode force now st).analyze, now ≤ ke.2.expiresAt)
    ∧ (∀ ke ∈ (cleanupCache demoMode force now st).future, now ≤ ke.2.expiresAt)
    ∧ (cleanupCache demoMode force now st).futureImage = st.futureImage
    ∧ (demoMode = true → force = false →
        (cleanupCache demoMode force now st).analyze =
          st.analyze.filter (fun ke => !(decide (ke.2.expiresAt < now)))
        ∧ (cleanupCache demoMode force now st).future =
          st.future.filter (fun ke => !(decide (ke.2.expiresAt < now))))
    ∧ (demoMode = false ∨ force = true →
        (cleanupCache demoMode force now st).analyze.length ≤ MAX_ENTRIES
        ∧ (cleanupCache demoMode force now st).future.length ≤ MAX_ENTRIES)
    ∧ (demoMode = false ∨ force = true →
        (∀ a ∈ (cleanupCache demoMode force now st).analyze,
          a.2.source = .api →
          ∀ ke ∈ st.analyze, ke.2.source ≠ .api → now ≤ ke.2.expiresAt →
            ke ∈ (cleanupCache demoMode force now st).analyze)
        ∧ (∀ a ∈ (cleanupCache demoMode force now st).future,
          a.2.source = .api →
          ∀ ke ∈ st.future, ke.2.source ≠ .api → now ≤ ke.2.expiresAt →
            ke ∈ (cleanupCache demoMode force now st).future)) := by
  by_cases hc : (demoMode && !force) = true
  · obtain ⟨hdm, hf⟩ : demoMode = true ∧ force = false := by
      simpa using hc
    have hres : cleanupCache demoMode force now st =
        { st with analyze := cleanCacheCategory false now st.analyze,
                  future := cleanCacheCategory false now st.future } := by
      rw [cleanupCache, if_pos hc]
    rw [hres]
    dsimp only
    refine ⟨fun ke h => mem_cleanCat_unexpired h,
            fun ke h => mem_cleanCat_unexpired h, rfl,
            fun _ _ => ⟨cleanCat_false now st.analyze, cleanCat_false now st.future⟩,
            ?_, ?_⟩ <;>
      · intro hag
        rcases hag with h1 | h1
        · rw [hdm] at h1; cases h1
        · rw [hf] at h1; cases h1
  · have hres : cleanupCache demoMode force now st =
        { st with analyze := cleanCacheCategory true now st.analyze,
                  future := cleanCacheCategory true now st.future } := by
      rw [cleanupCache, if_neg hc]
    rw [hres]
    dsimp only
    refine ⟨fun ke h => mem_cleanCat_unexpired h,
            fun ke h => mem_cleanCat_unexpired h, rfl,
            ?_, ?_, ?_⟩
    · intro hdm hf
      rw [hdm, hf] at hc
      simp at hc
    · exact fun _ => ⟨cleanCat_true_length now st.analyze,
                      cleanCat_true_length now st.future⟩
    · exact fun _ => ⟨cleanCat_true_pref now st.analyze hndA,
                      cleanCat_true_pref now st.future hndF⟩

/-- Witness for the amended C2 at a concrete cache: the `futureImage`
category survives cleanup untouched and the cleaned categories stay within
the cap. -/
theorem c2_eviction_amended_witness :
    (cleanupCache false false 5
      { analyze := [("a", { data := "x", timestamp := 0, hits := 0,
                            source := .api, expiresAt := 9 })],
        future := [],
        futureImage := [("f", { data := "y", timestamp := 0, hits := 0,
                                source := .api, expiresAt := 1 })] }).futureImage =
      ({ analyze := [("a", { data := "x", timestamp := 0, hits := 0,
                             source := .api, expiresAt := 9 })],
         future := [],
         futureImage := [("f", { data := "y", timestamp := 0, hits := 0,
                                 source := .api, expiresAt := 1 })] } :
        CacheState).futureImage :=
  (c2_eviction_amended false false 5 _ (by decide) (by decide)).2.2.1

/-- `DEMO_CONFIG.FORCE_DEMO_FOR_MISSING_KEYS`. -/
def FORCE_DEMO_FOR_MISSING_KEYS : Bool := true

/-- `DEMO_CONFIG.OFFLINE_CAPABLE`. -/
def OFFLINE_CAPABLE : Bool := true

/-- The result record of `getDemoStatus()`. -/
structure DemoStatus where
  enabled : Bool
  reason : String
  mode : String
  scenarioTag : String
  manuallyActivated : Bool
deriving DecidableEq, Repr

/-- The manual-activation state parsed from the `energia_demo_mode`
local-storage key: `active` is `demoData.active === true`, `scenario` is the
stored scenario string (empty when absent, which is falsy in JS). -/
structure DemoStored where
  active : Bool
  scenarioTag : String
deriving DecidableEq, Repr

/-- The `manuallyActivated` local of `getDemoStatus`: `false` when no item is
stored (`none`) or `JSON.parse` throws (`some none`). -/
def manuallyActivatedOf : Option (Option DemoStored) → Bool
  | some (some d) => d.active
  | _ => false

/-- The `scenario` local of `getDemoStatus` (`demoData.scenario || 'default'`). -/
def scenarioOf : Option (Option DemoStored) → String
  | some (some d) => if DemoStored.scenarioTag d = "" then "default" else DemoStored.scenarioTag d
  | _ => "default"

/-- `getDemoStatus()`, client-side branch (`typeof window !== 'undefined'`;
the server branch short-circuits to environment defaults before any of the
decision logic runs).  Inputs: `envEnabled` is
`process.env.NEXT_PUBLIC_DEMO_MODE === 'true'`, `apiKeyMissing` is the
absence/emptiness of `process.env.OPENAI_API_KEY`, `networkOffline` is
`!navigator.onLine`, and `storedDemo` the parsed manual-activation state. -/
def getDemoStatus (envEnabled apiKeyMissing networkOffline : Bool)
    (storedDemo : Option (Option DemoStored)) : DemoStatus :=
  let manuallyActivated := manuallyActivatedOf storedDemo
  let scen := scenarioOf storedDemo
  let enabled0 := envEnabled || manuallyActivated
  let reason0 :=
    if manuallyActivated then "Manually activated" else "Configured in environment"
  let mode0 := "standard"
  let step1 :=
    if apiKeyMissing && FORCE_DEMO_FOR_MISSING_KEYS then
      (true, "API key missing", "fallback")
    else (enabled0, reason0, mode0)
  let step2 :=
    if networkOffline && OFFLINE_CAPABLE then
      (true, "Network offline", "offline")
    else step1
  { enabled := step2.1, reason := step2.2.1, mode := step2.2.2,
    scenarioTag := scen, manuallyActivated := manuallyActivated }

/-- C1 counterexample.  With the API credential absent AND the network
offline, the offline check runs last and overwrites the mode: the claim's
"mode = fallback whenever the credential is absent, regardless of the
network signal" fails. -/
theorem c1_demo_status_counterexample :
    (getDemoStatus false true true none).mode = "offline"
    ∧ (getDemoStatus false true true none).mode ≠ "fallback" := by
  exact ⟨rfl, by decide⟩

/-- Decision order following the amended claim's words: a network-offline
signal takes precedence and yields `enabled = true, mode = offline`; else a
missing API credential yields `enabled = true, mode = fallback`; otherwise
`enabled = (build flag OR manual flag)` with `mode = standard`. -/
def demoDecisionSpec (envEnabled manualActive apiKeyMissing networkOffline : Bool) :
    Bool × String :=
  if networkOffline then (true, "offline")
  else if apiKeyMissing then (true, "fallback")
  else (envEnabled || manualActive, "standard")

/-- C1 (amended).  `getDemoStatus` realizes the amended decision order: if
the credential is absent and the network is online it returns
`enabled = true, mode = fallback`; if the network is offline it returns
`enabled = true, mode = offline` (this branch wins even when the credential
is also absent); otherwise `enabled = envFlag OR manualFlag` and
`mode = standard`. -/
theorem c1_demo_status_amended (envEnabled apiKeyMissing networkOffline : Bool)
    (storedDemo : Option (Option DemoStored)) :
    ((getDemoStatus envEnabled apiKeyMissing networkOffline storedDemo).enabled,
     (getDemoStatus envEnabled apiKeyMissing networkOffline storedDemo).mode) =
      demoDecisionSpec envEnabled (manuallyActivatedOf storedDemo)
        apiKeyMissing networkOffline := by
  cases apiKeyMissing <;> cases networkOffline <;>
    simp [getDemoStatus, demoDecisionSpec, FORCE_DEMO_FOR_MISSING_KEYS,
      OFFLINE_CAPABLE]

/-- The literal separator `'base64,'` used by `getImageHash`. -/
def base64Sep : List Char := ['b', 'a', 's', 'e', '6', '4', ',']

/-- The data-URL prefix `'data:image/jpeg;base64,'` (as produced by
`FileReader.readAsDataURL` / the handler's own base64 encoding). -/
def dataUrlJpeg : List Char :=
  ['d', 'a', 't', 'a', ':', 'i', 'm', 'a', 'g', 'e', '/', 'j', 'p', 'e', 'g',
   ';', 'b', 'a', 's', 'e', '6', '4', ',']

/-- Literal match test: does `l` start with `needle`? -/
def startsWithLit : List Char → List Char → Bool
  | [], _ => true
  | _ :: _, [] => false
  | n :: ns, c :: cs => n == c && startsWithLit ns cs

/-- Substring test (JS `String.prototype.includes` with a literal needle). -/
def containsSub : List Char → List Char → Bool
  | [], needle => needle.isEmpty
  | c :: rest, needle => startsWithLit needle (c :: rest) || containsSub rest needle

/-- The text after the first occurrence of `sep`, or `none` when `sep` does
not occur (so `isSome` is exactly JS `includes(sep)` for nonempty `sep`). -/
def afterFirstLit (sep : List Char) : List Char → Option (List Char)
  | [] => none
  | c :: rest =>
      if startsWithLit sep (c :: rest) then some ((c :: rest).drop sep.length)
      else afterFirstLit sep rest

/-- The text before the first occurrence of `sep` (the whole text when `sep`
does not occur). -/
def upToFirstLit (sep : List Char) : List Char → List Char
  | [] => []
  | c :: rest =>
      if startsWithLit sep (c :: rest) then []
      else c :: upToFirstLit sep rest

/-- The base64-normalization step of `getImageHash`:
`imageData.includes('base64,') ? imageData.split('base64,')[1] : imageData`.
JS `split(sep)[1]` is the segment between the first occurrence of `sep` and
the following occurrence (or the end), which is
`upToFirstLit sep (afterFirstLit sep imageData)`; when `sep` does not occur,
`includes` is false and the input is used unchanged. -/
def normalizeBase64 (imageData : List Char) : List Char :=
  match afterFirstLit base64Sep imageData with
  | some rest => upToFirstLit base64Sep rest
  | none => imageData

/-- Modelled from the spec: `crypto.createHash('md5')...digest('hex')` is "a
deterministic content digest" returned "as a hex string" (node's `crypto` is
not part of this repository).  We model it as the dot-separated hex dump of
the input's code points: a deterministic, total digest that, like the real
MD5, distinguishes the concrete payloads appearing in the theorems below. -/
def md5Hex (s : List Char) : List Char :=
  s.foldr (fun c acc => Nat.toDigits 16 c.toNat ++ '.' :: acc) []

/-- `getImageHash(imageData)`: hash of the normalized payload.  The source's
catch branch (a time/random-seeded digest) is unreachable here: hashing a
string cannot throw, and totality of this definition is the no-throw
contract. -/
def getImageHash (imageData : List Char) : List Char :=
  md5Hex (normalizeBase64 imageData)

lemma upToFirstLit_eq_self {sep : List Char} :
    ∀ {p : List Char}, afterFirstLit sep p = none → upToFirstLit sep p = p := by
  intro p
  induction p with
  | nil => intro _; rfl
  | cons c rest ih =>
    intro h
    unfold afterFirstLit at h
    unfold upToFirstLit
    by_cases hs : startsWithLit sep (c :: rest) = true
    · rw [if_pos hs] at h
      cases h
    · rw [if_neg hs] at h ⊢
      rw [ih h]

/-- C6 counterexample.  `split('base64,')[1]` takes the segment between the
first and second occurrences of `'base64,'`, so for a payload that itself
contains `'base64,'` the digest of the bare payload and the digest of the
data-URL-prefixed payload disagree: normalization yields `"y"` for the bare
payload `"xbase64,y"` but `"x"` for the prefixed one. -/
theorem c6_hash_counterexample :
    normalizeBase64 ['x', 'b', 'a', 's', 'e', '6', '4', ',', 'y'] = ['y']
    ∧ normalizeBase64 (dataUrlJpeg ++ ['x', 'b', 'a', 's', 'e', '6', '4', ',', 'y'])
        = ['x']
    ∧ getImageHash (dataUrlJpeg ++ ['x', 'b', 'a', 's', 'e', '6', '4', ',', 'y'])
        ≠ getImageHash ['x', 'b', 'a', 's', 'e', '6', '4', ',', 'y'] := by
  refine ⟨rfl, rfl, ?_⟩
  decide

/-- C6 (amended).  The hash is deterministic and total, and for every payload
that does not itself contain the substring `'base64,'`, hashing with the
data-URL prefix equals hashing the bare payload. -/
theorem c6_hash_amended (p : List Char)
    (hp : afterFirstLit base64Sep p = none) :
    getImageHash (dataUrlJpeg ++ p) = getImageHash p
    ∧ getImageHash p = getImageHash p := by
  refine ⟨?_, rfl⟩
  have h1 : afterFirstLit base64Sep (dataUrlJpeg ++ p) = some p := rfl
  unfold getImageHash normalizeBase64
  rw [h1, hp]
  dsimp only
  rw [upToFirstLit_eq_self hp]

/-- Witness for the amended C6 at the concrete payload `"hi"`. -/
theorem c6_hash_amended_witness :
    getImageHash (dataUrlJpeg ++ ['h', 'i']) = getImageHash ['h', 'i']
    ∧ getImageHash ['h', 'i'] = getImageHash ['h', 'i'] :=
  c6_hash_amended ['h', 'i'] rfl

/-- `getDemoStatus()` as observed by the API route: API routes run
server-side where `typeof window === 'undefined'`, so the function returns
its environment defaults before any client-side decision logic. -/
def getDemoStatusServer (envEnabled : Bool) : DemoStatus :=
  { enabled := envEnabled, reason := "Server-side default", mode := "standard",
    scenarioTag := "default", manuallyActivated := false }

/-- `getNetworkStatus().online` as observed by the API route: server-side
`typeof navigator === 'undefined'`, so the route always sees `online: true`. -/
def serverNetworkOnline : Bool := true

/-- The observable HTTP outcome of the analyze-image handler: status code and
the `_meta.source` / `_meta.status` fields (`none` for the plain error
payloads of the 405/400 responses, which carry no `_meta`). -/
structure HandlerResponse where
  status : Nat
  source : Option String
  metaStatus : Option String
deriving DecidableEq, Repr

/-- An incoming request: method, whether `req.body` is null/undefined (so the
destructuring `const { image } = req.body` throws into the outer catch), and
the `image` field (`some ""` is falsy in JS, like absence). -/
structure AnalyzeRequest where
  isPost : Bool
  bodyThrows : Bool
  image : Option String
deriving DecidableEq, Repr

/-- The external-world outcomes the handler can observe: environment
variables, the shared cache, and the results of its filesystem / OpenAI
calls (each `...Throws` flag selects the corresponding catch branch). -/
structure AnalyzeEnv where
  apiKeyMissing : Bool
  envDemoEnabled : Bool
  demoFlag : Bool
  now : Nat
  cache : CacheState
  fsThrows : Bool
  boxesImageFound : Bool
  originalImageFound : Bool
  apiThrows : Bool
  emergencyBoxesExists : Bool
  emergencyReadThrows : Bool
deriving Repr

/-- The outer catch of the handler (`catch (error)` at the end): the
"EMERGENCY FIX" block returns a fallback payload with the boxes image when
`02_boxes.jpg` exists and reads cleanly, else the plain fallback response.
Either way the status is 200. -/
def analyzeCatch (env : AnalyzeEnv) : HandlerResponse :=
  if env.emergencyBoxesExists && !env.emergencyReadThrows then
    { status := 200, source := some "fallback", metaStatus := some "emergency" }
  else
    { status := 200, source := some "fallback", metaStatus := some "error" }

/-- The analyze-image API handler (`pages/api/analyze-image.ts`, default
export), reduced to its response decision tree.  Cache writes
(`cacheResponse` calls) do not affect the emitted response and are elided;
every branch mirrors a `return res.status(...)` of the source. -/
def analyzeHandler (env : AnalyzeEnv) (req : AnalyzeRequest) : HandlerResponse :=
  if !req.isPost then { status := 405, source := none, metaStatus := none }
  else if req.bodyThrows then analyzeCatch env
  else
    match req.image with
    | none => { status := 400, source := none, metaStatus := none }
    | some img =>
      if img = "" then { status := 400, source := none, metaStatus := none }
      else if env.apiKeyMissing then
        { status := 200, source := some "fallback", metaStatus := some "api_key_missing" }
      else
        let demoStatus := getDemoStatusServer env.envDemoEnabled
        let imageHash := String.mk (getImageHash img.data)
        let cacheStatus :=
          (getCachedResponseWithStatus env.demoFlag env.now env.cache
            .analyze imageHash).1.1
        if cacheStatus = .hit then
          { status := 200, source := some "cache", metaStatus := some "hit" }
        else if demoStatus.enabled then
          if env.fsThrows then
            { status := 200, source := some "demo", metaStatus := some demoStatus.mode }
          else if env.boxesImageFound then
            { status := 200, source := some "demo", metaStatus := some demoStatus.mode }
          else if env.originalImageFound then
            { status := 200, source := some "demo", metaStatus := some demoStatus.mode }
          else
            { status := 200, source := some "demo", metaStatus := some demoStatus.mode }
        else if cacheStatus = .stale && !serverNetworkOnline then
          { status := 200, source := some "cache", metaStatus := some "stale" }
        else if env.apiThrows then
          if cacheStatus = .stale then
            { status := 200, source := some "cache", metaStatus := some "stale_fallback" }
          else
            { status := 200, source := some "fallback", metaStatus := some "api_error" }
        else
          { status := 200, source := some "api", metaStatus := some "fresh" }

/-- C7 counterexample.  The claim says every request gets HTTP 200, but a
non-POST request is answered with 405 (and a bare error payload without
`_meta`). -/
theorem c7_handler_counterexample :
    (analyzeHandler
      { apiKeyMissing := false, envDemoEnabled := false, demoFlag := false,
        now := 0, cache := { analyze := [], future := [], futureImage := [] },
        fsThrows := false, boxesImageFound := false, originalImageFound := false,
        apiThrows := false, emergencyBoxesExists := false,
        emergencyReadThrows := false }
      { isPost := false, bodyThrows := false, image := some "x" }).status = 405
    ∧ (405 : Nat) ≠ 200 := by
  exact ⟨rfl, by decide⟩

/-- C7 (amended).  A non-POST request gets 405 and a present body without a
truthy image gets 400 (both without `_meta`); every other request — in
particular every failure path: missing credential, filesystem error,
external-call failure, and even an unparseable body (internal error) — is
answered with HTTP 200 and a `_meta.source` in {api, cache, demo, fallback}
together with a `_meta.status` field. -/
theorem c7_handler_amended (env : AnalyzeEnv) (req : AnalyzeRequest) :
    (req.isPost = false →
      analyzeHandler env req = { status := 405, source := none, metaStatus := none })
    ∧ (req.isPost = true → req.bodyThrows = true →
      (analyzeHandler env req).status = 200
      ∧ (analyzeHandler env req).source = some "fallback"
      ∧ ((analyzeHandler env req).metaStatus).isSome = true)
    ∧ (req.isPost = true → req.bodyThrows = false →
       (req.image = none ∨ req.image = some "") →
      analyzeHandler env req = { status := 400, source := none, metaStatus := none })
    ∧ (∀ img, req.isPost = true → req.bodyThrows = false → req.image = some img →
       img ≠ "" →
      (analyzeHandler env req).status = 200
      ∧ ((analyzeHandler env req).source = some "api"
         ∨ (analyzeHandler env req).source = some "cache"
         ∨ (analyzeHandler env req).source = some "demo"
         ∨ (analyzeHandler env req).source = some "fallback")
      ∧ ((analyzeHandler env req).metaStatus).isSome = true) := by
  refine ⟨?_, ?_, ?_, ?_⟩
  · intro hpost
    simp [analyzeHandler, hpost]
  · intro hpost hbody
    simp only [analyzeHandler, hpost, hbody, Bool.not_true, Bool.false_eq_true,
      if_false, if_true]
    unfold analyzeCatch
    split <;> simp
  · intro hpost hbody himg
    rcases himg with h | h <;> simp [analyzeHandler, hpost, hbody, h]
  · intro img hpost hbody himg himgne
    simp only [analyzeHandler, hpost, hbody, himg, Bool.not_true,
      Bool.false_eq_true, if_false]
    rw [if_neg himgne]
    split_ifs <;> simp

/-- Witness for the amended C7: a POST request with an image in a fresh
environment is answered 200 from the api source. -/
theorem c7_handler_amended_witness :
    (analyzeHandler
      { apiKeyMissing := false, envDemoEnabled := false, demoFlag := false,
        now := 0, cache := { analyze := [], future := [], futureImage := [] },
        fsThrows := false, boxesImageFound := false, originalImageFound := false,
        apiThrows := false, emergencyBoxesExists := false,
        emergencyReadThrows := false }
      { isPost := true, bodyThrows := false, image := some "img" }).status = 200
    ∧ ((analyzeHandler
      { apiKeyMissing := false, envDemoEnabled := false, demoFlag := false,
        now := 0, cache := { analyze := [], future := [], futureImage := [] },
        fsThrows := false, boxesImageFound := false, originalImageFound := false,
        apiThrows := false, emergencyBoxesExists := false,
        emergencyReadThrows := false }
      { isPost := true, bodyThrows := false, image := some "img" }).source = some "api"
       ∨ (analyzeHandler
      { apiKeyMissing := false, envDemoEnabled := false, demoFlag := false,
        now := 0, cache := { analyze := [], future := [], futureImage := [] },
        fsThrows := false, boxesImageFound := false, originalImageFound := false,
        apiThrows := false, emergencyBoxesExists := false,
        emergencyReadThrows := false }
      { isPost := true, bodyThrows := false, image := some "img" }).source = some "cache"
       ∨ (analyzeHandler
      { apiKeyMissing := false, envDemoEnabled := false, demoFlag := false,
        now := 0, cache := { analyze := [], future := [], futureImage := [] },
        fsThrows := false, boxesImageFound := false, originalImageFound := false,
        apiThrows := false, emergencyBoxesExists := false,
        emergencyReadThrows := false }
      { isPost := true, bodyThrows := false, image := some "img" }).source = some "demo"
       ∨ (analyzeHandler
      { apiKeyMissing := false, envDemoEnabled := false, demoFlag := false,
        now := 0, cache := { analyze := [], future := [], futureImage := [] },
        fsThrows := false, boxesImageFound := false, originalImageFound := false,
        apiThrows := false, emergencyBoxesExists := false,
        emergencyReadThrows := false }
      { isPost := true, bodyThrows := false, image := some "img" }).source = some "fallback")
    ∧ ((analyzeHandler
      { apiKeyMissing := false, envDemoEnabled := false, demoFlag := false,
        now := 0, cache := { analyze := [], future := [], futureImage := [] },
        fsThrows := false, boxesImageFound := false, originalImageFound := false,
        apiThrows := false, emergencyBoxesExists := false,
        emergencyReadThrows := false }
      { isPost := true, bodyThrows := false, image := some "img" }).metaStatus).isSome
      = true :=
  (c7_handler_amended _ _).2.2.2 "img" rfl rfl rfl (by decide)

/-- JS `\s` restricted to the ASCII whitespace actually occurring in model
replies (space, tab, newline, carriage return, vertical tab, form feed). -/
def isWsChar (c : Char) : Bool :=
  c == ' ' || c == '\t' || c == '\n' || c == '\r' ||
  c == Char.ofNat 11 || c == Char.ofNat 12

/-- JS `\d`. -/
def isDigitChar (c : Char) : Bool := c.isDigit

/-- JS `\w` (`[A-Za-z0-9_]`). -/
def isWordChar (c : Char) : Bool := c.isAlphanum || c == '_'

/-- The apostrophe character, used to build the disclaimer phrases. -/
def apos : Char := Char.ofNat 39

/-- `toLowerCase()` on the ASCII range (all strings compared case
-insensitively by the parser are ASCII apart from the already-lowercase
accented letters of the French literals, which both JS and this model leave
unchanged). -/
def lcL (l : List Char) : List Char := l.map Char.toLower

/-- Case-insensitive literal prefix test. -/
def startsWithCI : List Char → List Char → Bool
  | [], _ => true
  | _ :: _, [] => false
  | n :: ns, c :: cs => (Char.toLower n == Char.toLower c) && startsWithCI ns cs

/-- Case-insensitive substring test. -/
def containsSubCI : List Char → List Char → Bool
  | [], needle => needle.isEmpty
  | c :: rest, needle => startsWithCI needle (c :: rest) || containsSubCI rest needle

/-- JS `trim()`: strip whitespace from both ends. -/
def trimL (l : List Char) : List Char :=
  ((l.dropWhile isWsChar).reverse.dropWhile isWsChar).reverse

/-- JS `split(sep)` for a single-character separator. -/
def splitOnChar (sep : Char) : List Char → List (List Char)
  | [] => [[]]
  | c :: rest =>
    match splitOnChar sep rest with
    | [] => [[c]]
    | p :: ps => if c == sep then [] :: p :: ps else (c :: p) :: ps

/-- One `replace(/phrase\s*\.?/i, '')` step of the disclaimer cleanup: drop
the leftmost case-insensitive occurrence of `phrase` together with trailing
whitespace and one optional period. -/
def replaceFirstCI (phrase : List Char) : List Char → List Char
  | [] => []
  | c :: rest =>
    if startsWithCI phrase (c :: rest) then
      match ((c :: rest).drop phrase.length).dropWhile isWsChar with
      | '.' :: r3 => r3
      | r2 => r2
    else c :: replaceFirstCI phrase rest

/-- Disclaimer phrase `I'm unable to analyze images directly`. -/
def phrase1 : List Char := 'I' :: apos :: "m unable to analyze images directly".data

/-- Disclaimer phrase `As an AI, I cannot directly analyze the image`. -/
def phrase2 : List Char := "As an AI, I cannot directly analyze the image".data

/-- Disclaimer phrase `I'll describe what I can see in this electrical
infrastructure image`. -/
def phrase3 : List Char :=
  'I' :: apos :: "ll describe what I can see in this electrical infrastructure image".data

/-- The `cleanedContent` computation: the three disclaimer replacements, each
removing only the first occurrence (no global flag in the source). -/
def cleanDisclaimers (content : List Char) : List Char :=
  replaceFirstCI phrase3 (replaceFirstCI phrase2 (replaceFirstCI phrase1 content))

/-- Match of `/\d+\.\s+\*\*[^*]+\*\*:/` anchored at the head of `l`. -/
def numberedItemAt (l : List Char) : Bool :=
  !(l.takeWhile isDigitChar).isEmpty &&
  match l.dropWhile isDigitChar with
  | '.' :: r1 =>
    !(r1.takeWhile isWsChar).isEmpty &&
    (match r1.dropWhile isWsChar with
     | '*' :: '*' :: r3 =>
       !(r3.takeWhile (fun c => !(c == '*'))).isEmpty &&
       (match r3.dropWhile (fun c => !(c == '*')) with
        | '*' :: '*' :: ':' :: _ => true
        | _ => false)
     | _ => false)
  | _ => false

/-- `/\d+\.\s+\*\*[^*]+\*\*:/.test(content)`: the pattern matches at some
position. -/
def hasNumberedList : List Char → Bool
  | [] => false
  | c :: rest => numberedItemAt (c :: rest) || hasNumberedList rest

/-- Pending state of the `split(/\d+\.\s+/)` scanner: `plain` is ordinary
text; `digits ds` holds a tentative digit run (latest first) that may yet
become a separator; `dot ds` has additionally seen the `.`; `ws` is inside
the separator's trailing whitespace (`\s+`, greedy). -/
inductive SplitPend where
  | plain
  | digits (ds : List Char)
  | dot (ds : List Char)
  | ws
deriving DecidableEq, Repr

/-- State of the split scanner: emitted pieces, the current piece (latest
character first), and the pending separator candidate. -/
structure SplitState where
  out : List (List Char)
  acc : List Char
  pend : SplitPend
deriving DecidableEq, Repr

/-- Scanner transition for a character read in `plain` mode. -/
def stepPlain (s : SplitState) (c : Char) : SplitState :=
  if isDigitChar c then { s with pend := .digits [c] }
  else { s with acc := c :: s.acc, pend := .plain }

/-- One transition of the split scanner.  A digit run followed by `.` and at
least one whitespace character is a separator (the JS regex `\d+\.\s+`,
which can only match starting at the first digit of a maximal run, as the
backtracked shorter runs still face a digit where `\.` is required); any
prefix of that shape that fails is flushed back into the current piece. -/
def splitStep (s : SplitState) (c : Char) : SplitState :=
  match s.pend with
  | .plain => stepPlain s c
  | .digits ds =>
    if isDigitChar c then { s with pend := .digits (c :: ds) }
    else if c == '.' then { s with pend := .dot ds }
    else stepPlain { s with acc := ds ++ s.acc, pend := .plain } c
  | .dot ds =>
    if isWsChar c then { out := s.out ++ [s.acc.reverse], acc := [], pend := .ws }
    else stepPlain { s with acc := '.' :: (ds ++ s.acc), pend := .plain } c
  | .ws =>
    if isWsChar c then s
    else stepPlain { s with pend := .plain } c

/-- Flush the scanner's final state into the last piece. -/
def splitFinish (s : SplitState) : List (List Char) :=
  match s.pend with
  | .plain => s.out ++ [s.acc.reverse]
  | .digits ds => s.out ++ [(ds ++ s.acc).reverse]
  | .dot ds => s.out ++ [('.' :: (ds ++ s.acc)).reverse]
  | .ws => s.out ++ [[]]

/-- `content.split(/\d+\.\s+/).filter(Boolean)`: split at every
non-overlapping leftmost match of the separator regex (greedy `\s+`), then
keep the nonempty pieces. -/
def splitNumbered (l : List Char) : List (List Char) :=
  (splitFinish (l.foldl splitStep { out := [], acc := [], pend := .plain })).filter
    (fun p => !p.isEmpty)

/-- Greedy capture `\s*(cls+)` after a matched key: the greedy `\s*` run is
given back one character at a time on failure, so the capture is the class
run after the whitespace when nonempty, else the last whitespace character
that is itself in the class (whitespace is in every class used here except
where `\n`/`\r` are excluded). -/
def greedyCapTail (cls : Char → Bool) (r : List Char) : Option (List Char) :=
  let cap := (r.dropWhile isWsChar).takeWhile cls
  if !cap.isEmpty then some cap
  else
    match ((r.takeWhile isWsChar).reverse.dropWhile (fun c => !(cls c))) with
    | [] => none
    | c :: _ => some [c]

/-- Character class `[^*\n\r-]` of the `valueAfterType` regex. -/
def clsCT (c : Char) : Bool := !(c == '*' || c == '\n' || c == '\r' || c == '-')

/-- Character class `[^*\n,]` of the Details-derived-type regex. -/
def clsDet (c : Char) : Bool := !(c == '*' || c == '\n' || c == ',')

/-- Match of `/\*\*Component Type\*\*:\s*([^*\n\r-]+)/i` anchored at `l`. -/
def ctValueTryAt (l : List Char) : Option (List Char) :=
  if startsWithCI "**component type**:".data l then
    greedyCapTail clsCT (l.drop 19)
  else none

/-- Search for `/\*\*Component Type\*\*:\s*([^*\n\r-]+)/i`. -/
def ctValueSearch : List Char → Option (List Char)
  | [] => none
  | c :: rest =>
    match ctValueTryAt (c :: rest) with
    | some cap => some cap
    | none => ctValueSearch rest

/-- Match of `/\*\*Details\*\*\s*:\s*([^*\n,]+)/i` anchored at `l` (used only
to salvage a type name out of the details text). -/
def ctDetailsTryAt (l : List Char) : Option (List Char) :=
  if startsWithCI "**details**".data l then
    match (l.drop 11).dropWhile isWsChar with
    | ':' :: r => greedyCapTail clsDet r
    | _ => none
  else none

/-- Search for the Details-derived-type regex. -/
def ctDetailsSearch : List Char → Option (List Char)
  | [] => none
  | c :: rest =>
    match ctDetailsTryAt (c :: rest) with
    | some cap => some cap
    | none => ctDetailsSearch rest

/-- The next-line fallback loop of the `**Component Type**:` path: find a
line containing the literal, take the following line if nonempty and not
mentioning confidence, strip leading non-word characters
(`replace(/^[^\w]+/, '')`) and trim; otherwise keep looking. -/
def ctNextLineLoop : List (List Char) → Option (List Char)
  | [] => none
  | [_] => none
  | l1 :: l2 :: rest =>
    if containsSub l1 ("**Component Type**:".data) then
      let nextLine := trimL l2
      if !nextLine.isEmpty &&
          !(containsSubCI nextLine "confidence".data) then
        some (trimL (nextLine.dropWhile (fun c => !(isWordChar c))))
      else ctNextLineLoop (l2 :: rest)
    else ctNextLineLoop (l2 :: rest)

/-- Match of `/^\s*\*\*([^*:]+)\*\*\s*:/` (anchored; case-sensitive). -/
def leadTypeMatch (l : List Char) : Option (List Char) :=
  match l.dropWhile isWsChar with
  | '*' :: '*' :: r2 =>
    let cap := r2.takeWhile (fun c => !(c == '*' || c == ':'))
    if cap.isEmpty then none
    else
      match r2.dropWhile (fun c => !(c == '*' || c == ':')) with
      | '*' :: '*' :: r4 =>
        (match r4.dropWhile isWsChar with
         | ':' :: _ => some cap
         | _ => none)
      | _ => none
  | _ => none

/-- The `\*\*Confiden[cs]e\*\*` alternation, case-insensitive: consume either
`**confidence**` or `**confidense**`. -/
def confKeyAt (l : List Char) : Option (List Char) :=
  if startsWithCI "**confidence**".data l then some (l.drop 14)
  else if startsWithCI "**confidense**".data l then some (l.drop 14)
  else none

/-- Match of `/\*\*Confiden[cs]e\*\*\s*:\s*(\d+)%/i` anchored at `l`,
returning the digit capture. -/
def confTryAt (l : List Char) : Option (List Char) :=
  match confKeyAt l with
  | none => none
  | some r5 =>
    match r5.dropWhile isWsChar with
    | ':' :: r7 =>
      let r8 := r7.dropWhile isWsChar
      let ds := r8.takeWhile isDigitChar
      if ds.isEmpty then none
      else
        match r8.dropWhile isDigitChar with
        | '%' :: _ => some ds
        | _ => none
    | _ => none

/-- Search for the numbered-branch confidence regex. -/
def confSearch : List Char → Option (List Char)
  | [] => none
  | c :: rest =>
    match confTryAt (c :: rest) with
    | some ds => some ds
    | none => confSearch rest

/-- The lookahead `(?=\s*\*\*|\s*$)` of the field regexes. -/
def lookaheadStarsOrEnd (l : List Char) : Bool :=
  match l.dropWhile isWsChar with
  | [] => true
  | '*' :: '*' :: _ => true
  | _ => false

/-- Lazy capture `([^*]+?)` up to the lookahead: consume one non-star
character at a time and stop as soon as the lookahead holds. -/
def lazyCapNonStar : List Char → List Char → Option (List Char)
  | [], _ => none
  | c :: rest, acc =>
    if c == '*' then none
    else if lookaheadStarsOrEnd rest then some (c :: acc).reverse
    else lazyCapNonStar rest (c :: acc)

/-- Backtracking over the greedy `\s*` before the lazy capture: try the
shortest whitespace give-back first, prepending whitespace characters to the
capture window until a capture succeeds. -/
def fieldBT : List Char → List Char → Option (List Char)
  | [], cur =>
    match lazyCapNonStar cur [] with
    | some cap => some cap
    | none => none
  | c :: ws', cur =>
    match lazyCapNonStar cur [] with
    | some cap => some cap
    | none => fieldBT ws' (c :: cur)

/-- Capture of `\s*([^*]+?)(?=\s*\*\*|\s*$)` on the text after the `:`. -/
def fieldCapAfterColon (r : List Char) : Option (List Char) :=
  fieldBT (r.takeWhile isWsChar).reverse (r.dropWhile isWsChar)

/-- Match of `/\*\*Key\*\*\s*:\s*([^*]+?)(?=\s*\*\*|\s*$)/is` anchored at
`l`, for `key` of the shape `**details**`. -/
def fieldTryAt (key : List Char) (l : List Char) : Option (List Char) :=
  if startsWithCI key l then
    match (l.drop key.length).dropWhile isWsChar with
    | ':' :: r2 => fieldCapAfterColon r2
    | _ => none
  else none

/-- Search for a numbered-branch field regex. -/
def fieldSearch (key : List Char) : List Char → Option (List Char)
  | [] => none
  | c :: rest =>
    match fieldTryAt key (c :: rest) with
    | some cap => some cap
    | none => fieldSearch key rest

/-- One transition of the `replace(/\s*[\n\r]+\s*/g, ' ')` scanner: buffer
maximal whitespace runs (latest first) and record whether the run held a
newline; a run with a newline collapses to one space, any other run is kept. -/
def collapseStep (s : List Char × List Char × Bool) (c : Char) :
    List Char × List Char × Bool :=
  if isWsChar c then (s.1, c :: s.2.1, s.2.2 || c == '\n' || c == '\r')
  else (c :: ((if s.2.2 then [' '] else s.2.1) ++ s.1), [], false)

/-- `replace(/\s*[\n\r]+\s*/g, ' ')`: every maximal whitespace run containing
a newline or carriage return becomes a single space. -/
def collapseNL (l : List Char) : List Char :=
  ((fun s : List Char × List Char × Bool =>
      (if s.2.2 then [' '] else s.2.1) ++ s.1)
    (l.foldl collapseStep ([], [], false))).reverse

/-- One transition of the `replace(/\s*-\s*/g, '')` scanner: whitespace is
buffered; a dash discards the buffered whitespace and the following
whitespace run (further dashes extend the deletion, matching the
non-overlapping leftmost matches of the regex). -/
def dashStep (s : List Char × List Char × Bool) (c : Char) :
    List Char × List Char × Bool :=
  if s.2.2 then
    if isWsChar c then s
    else if c == '-' then s
    else (c :: s.1, [], false)
  else
    if c == '-' then (s.1, [], true)
    else if isWsChar c then (s.1, c :: s.2.1, false)
    else (c :: (s.2.1 ++ s.1), [], false)

/-- `replace(/\s*-\s*/g, '')`: drop every dash together with the whitespace
around it. -/
def stripDash (l : List Char) : List Char :=
  ((fun s : List Char × List Char × Bool =>
      (if s.2.2 then [] else s.2.1) ++ s.1)
    (l.foldl dashStep ([], [], false))).reverse

/-- The `cleanValue` helper of the numbered branch: collapse newline runs to
spaces, remove dashed separators, trim. -/
def cleanValue (v : List Char) : List Char := trimL (stripDash (collapseNL v))

/-- `parseInt` on a nonempty digit capture. -/
def digitsToNat (ds : List Char) : Nat :=
  ds.foldl (fun n c => n * 10 + (c.toNat - 48)) 0

/-- An extracted component record (`type/confidence/details/condition/risks`).
`confidence` is `parseInt(..)/100` (or the 0.8 default), modeled exactly in
`ℚ` (the source's IEEE value is the rounding of this rational and is never
computed with further). -/
structure Component where
  type : List Char
  confidence : ℚ
  details : List Char
  condition : List Char
  risks : List Char
deriving DecidableEq, Repr

/-- The last-resort keyword cascade for a component type. -/
def keywordType (block : List Char) : List Char :=
  let lb := lcL block
  if containsSub lb "pole".data || containsSub lb "poteau".data then
    "Utility Pole".data
  else if containsSub lb "transformer".data ||
      containsSub lb "transformateur".data then
    "Transformer".data
  else if containsSub lb "line".data || containsSub lb "wire".data ||
      containsSub lb "ligne".data || containsSub lb "câble".data then
    "Power Line".data
  else "Electrical Component".data

/-- `firstWord.match(/^[A-Z]/)`: the word starts with an ASCII capital. -/
def startsCapital : List Char → Bool
  | [] => false
  | c :: _ => 'A' ≤ c && c ≤ 'Z'

/-- `s.split(' ')[0]`: the text before the first space. -/
def headWord (l : List Char) : List Char := l.takeWhile (fun c => !(c == ' '))

/-- The literal string `Component Type`. -/
def ctPlainLit : List Char := "Component Type".data

/-- The component-type cascade of the numbered branch, start to finish.  The
empty list plays both JS `null` and `''` (both falsy, and every test below
treats them identically). -/
def numberedTypeOf (block : List Char) : List Char :=
  let ct0 : List Char :=
    if containsSub block "**Component Type**:".data then
      match ctValueSearch block with
      | some cap =>
        if !(trimL cap).isEmpty then trimL cap
        else
          (match ctNextLineLoop (splitOnChar '\n' block) with
           | some t => t
           | none => [])
      | none =>
        (match ctNextLineLoop (splitOnChar '\n' block) with
         | some t => t
         | none => [])
    else []
  let ct1 :=
    if ct0.isEmpty then
      match leadTypeMatch block with
      | some cap => trimL cap
      | none => []
    else ct0
  let ct2 :=
    if ct1 = ctPlainLit then
      match ctDetailsSearch block with
      | some cap =>
        let firstWord := trimL (headWord cap)
        if startsCapital firstWord then firstWord else ct1
      | none => ct1
    else ct1
  if ct2.isEmpty || ct2 = ctPlainLit then keywordType block else ct2

/-- Per-block extraction of the numbered-markdown branch (the `forEach` body
of lines 107–209): type cascade, confidence percentage, and the three
free-text fields with `cleanValue` and French defaults.  The final
`if (componentType)` of the source is always true because the keyword
cascade always produces a nonempty name, so every block yields a component. -/
def parseBlockNumbered (block : List Char) : Component :=
  { type := numberedTypeOf block,
    confidence :=
      match confSearch block with
      | some ds => (digitsToNat ds : ℚ) / 100
      | none => 4 / 5,
    details :=
      match fieldSearch "**details**".data block with
      | some v => cleanValue v
      | none => "Information non disponible".data,
    condition :=
      match fieldSearch "**condition**".data block with
      | some v => cleanValue v
      | none => "État inconnu".data,
    risks :=
      match fieldSearch "**risks**".data block with
      | some v => cleanValue v
      | none => "Risques non identifiés".data }

/-- The lookahead `(?=\*\*[^:*]+\*\*:|$)` of the unnumbered-markdown block
regex. -/
def mdLookahead (l : List Char) : Bool :=
  match l with
  | [] => true
  | '*' :: '*' :: r =>
    !(r.takeWhile (fun c => !(c == ':' || c == '*'))).isEmpty &&
    (match r.dropWhile (fun c => !(c == ':' || c == '*')) with
     | '*' :: '*' :: ':' :: _ => true
     | _ => false)
  | _ => false

/-- Lazy `([\s\S]*?)` up to `mdLookahead`, returning the capture and the
remaining text. -/
def mdLazy : List Char → List Char → Option (List Char × List Char)
  | l, acc =>
    if mdLookahead l then some (acc.reverse, l)
    else
      match l with
      | [] => none
      | c :: rest => mdLazy rest (c :: acc)

/-- Match of `/\*\*([^:*]+)\*\*:?\s+([\s\S]*?)(?=\*\*[^:*]+\*\*:|$)/` anchored
at `l`, returning the full match text and the rest of the input. -/
def mdTryAt (l : List Char) : Option (List Char × List Char) :=
  match l with
  | '*' :: '*' :: r =>
    let cap1 := r.takeWhile (fun c => !(c == ':' || c == '*'))
    if cap1.isEmpty then none
    else
      match r.dropWhile (fun c => !(c == ':' || c == '*')) with
      | '*' :: '*' :: r2 =>
        let colonPart : List Char := match r2 with | ':' :: _ => [':'] | _ => []
        let r3 := match r2 with | ':' :: t => t | _ => r2
        let w := r3.takeWhile isWsChar
        if w.isEmpty then none
        else
          match mdLazy (r3.dropWhile isWsChar) [] with
          | some (cap2, rest) =>
            some ('*' :: '*' :: (cap1 ++ '*' :: '*' :: (colonPart ++ w ++ cap2)),
                  rest)
          | none => none
      | _ => none
  | _ => none

/-- Fuel-driven global scan for the unnumbered-markdown regex (each step
either consumes a nonempty match or advances one character, so the input
length is enough fuel). -/
def mdMatchesGo : Nat → List Char → List (List Char)
  | 0, _ => []
  | fuel + 1, l =>
    match mdTryAt l with
    | some (m, rest) => m :: mdMatchesGo fuel rest
    | none =>
      match l with
      | [] => []
      | _ :: t => mdMatchesGo fuel t

/-- `cleanedContent.match(/\*\*([^:*]+)\*\*:?\s+([\s\S]*?)(?=\*\*[^:*]+\*\*:|$)/g)`:
the list of full match texts. -/
def mdMatches (l : List Char) : List (List Char) := mdMatchesGo l.length l

/-- Match of `/\*\*([^:*]+)\*\*:?/` anchored at `l`. -/
def mdTypeTryAt (l : List Char) : Option (List Char) :=
  match l with
  | '*' :: '*' :: r =>
    let cap1 := r.takeWhile (fun c => !(c == ':' || c == '*'))
    if cap1.isEmpty then none
    else
      match r.dropWhile (fun c => !(c == ':' || c == '*')) with
      | '*' :: '*' :: _ => some cap1
      | _ => none
  | _ => none

/-- Search for `/\*\*([^:*]+)\*\*:?/`. -/
def mdTypeSearch : List Char → Option (List Char)
  | [] => none
  | c :: rest =>
    match mdTypeTryAt (c :: rest) with
    | some cap => some cap
    | none => mdTypeSearch rest

/-- Match of `/\*\*Confiden[cs]e\*\*:?\s*(\d+)%/i` anchored at `l` (the
unnumbered variant: optional colon, no whitespace before it). -/
def mdConfTryAt (l : List Char) : Option (List Char) :=
  match confKeyAt l with
  | none => none
  | some r =>
    let r2 := match r with | ':' :: t => t | _ => r
    let r3 := r2.dropWhile isWsChar
    let ds := r3.takeWhile isDigitChar
    if ds.isEmpty then none
    else
      match r3.dropWhile isDigitChar with
      | '%' :: _ => some ds
      | _ => none

/-- Search for the unnumbered confidence regex. -/
def mdConfSearch : List Char → Option (List Char)
  | [] => none
  | c :: rest =>
    match mdConfTryAt (c :: rest) with
    | some ds => some ds
    | none => mdConfSearch rest

/-- Character class `[^*\n]` of the unnumbered field regexes. -/
def clsMd (c : Char) : Bool := !(c == '*' || c == '\n')

/-- Match of `/\*\*Key\*\*:?\s*([^*\n]+)/i` anchored at `l`. -/
def mdFieldTryAt (key : List Char) (l : List Char) : Option (List Char) :=
  if startsWithCI key l then
    let r := l.drop key.length
    let r2 := match r with | ':' :: t => t | _ => r
    greedyCapTail clsMd r2
  else none

/-- Search for an unnumbered field regex. -/
def mdFieldSearch (key : List Char) : List Char → Option (List Char)
  | [] => none
  | c :: rest =>
    match mdFieldTryAt key (c :: rest) with
    | some cap => some cap
    | none => mdFieldSearch key rest

/-- Per-block processing of the unnumbered-markdown branch (lines 221–277):
skipped entirely when the leading starred word is a property name; the
component-type literal `Component Type` is replaced from the details text or
the keyword cascade. -/
def parseBlockMd (block : List Char) : Option Component :=
  match mdTypeSearch block with
  | none => none
  | some cap =>
    let t0 := trimL cap
    let lt := lcL t0
    if lt = "confidence".data || lt = "details".data ||
        lt = "condition".data || lt = "risks".data then none
    else
      let det := mdFieldSearch "**details**".data block
      let t1 :=
        if lt = "component type".data then
          match det with
          | some cap2 =>
            let firstWord := trimL (headWord cap2)
            if startsCapital firstWord then firstWord else t0
          | none => t0
        else t0
      let t2 :=
        if (lcL t1) = "component type".data then keywordType block else t1
      some
        { type := t2,
          confidence :=
            match mdConfSearch block with
            | some ds => (digitsToNat ds : ℚ) / 100
            | none => 4 / 5,
          details :=
            match det with
            | some v => trimL v
            | none => "Information non disponible".data,
          condition :=
            match mdFieldSearch "**condition**".data block with
            | some v => trimL v
            | none => "État inconnu".data,
          risks :=
            match mdFieldSearch "**risks**".data block with
            | some v => trimL v
            | none => "Risques non identifiés".data }

/-- Character class `[^:.,;\n]` of the plain-branch type regex. -/
def clsPlainType (c : Char) : Bool :=
  !(c == ':' || c == '.' || c == ',' || c == ';' || c == '\n')

/-- Match of `/^([^:.,;\n]+)[:.]/` (anchored). -/
def plainTypeMatch (s : List Char) : Option (List Char) :=
  let cap := s.takeWhile clsPlainType
  if cap.isEmpty then none
  else
    match s.dropWhile clsPlainType with
    | ':' :: _ => some cap
    | '.' :: _ => some cap
    | _ => none

/-- Match of `/[Cc]onfian?ce\s*[:.]?\s*\(?(\d+)%\)?/i` anchored at `l` (the
`n?` makes it `confiance` or `confiace`; the `/i` flag covers the case). -/
def plainConfTryAt (l : List Char) : Option (List Char) :=
  match
    (if startsWithCI "confiance".data l then some (l.drop 9)
     else if startsWithCI "confiace".data l then some (l.drop 8)
     else none) with
  | none => none
  | some r =>
    let r1 := r.dropWhile isWsChar
    let r2 := match r1 with | ':' :: t => t | '.' :: t => t | _ => r1
    let r3 := r2.dropWhile isWsChar
    let r4 := match r3 with | '(' :: t => t | _ => r3
    let ds := r4.takeWhile isDigitChar
    if ds.isEmpty then none
    else
      match r4.dropWhile isDigitChar with
      | '%' :: _ => some ds
      | _ => none

/-- Match of `/\((\d+)%\)/` anchored at `l`. -/
def parenPctTryAt (l : List Char) : Option (List Char) :=
  match l with
  | '(' :: r =>
    let ds := r.takeWhile isDigitChar
    if ds.isEmpty then none
    else
      match r.dropWhile isDigitChar with
      | '%' :: ')' :: _ => some ds
      | _ => none
  | _ => none

/-- Confidence search of the plain branch: first regex, else the bare
percentage in parentheses. -/
def plainConfSearch : List Char → Option (List Char)
  | [] => none
  | c :: rest =>
    match plainConfTryAt (c :: rest) with
    | some ds => some ds
    | none => plainConfSearch rest

/-- Search for `/\((\d+)%\)/`. -/
def parenPctSearch : List Char → Option (List Char)
  | [] => none
  | c :: rest =>
    match parenPctTryAt (c :: rest) with
    | some ds => some ds
    | none => parenPctSearch rest

/-- Character class `[^.]`. -/
def clsNoDot (c : Char) : Bool := !(c == '.')

/-- Capture of `\s+(cls+)` (at least one whitespace character must remain
for `\s+`, so the give-back backtracking stops one short of the run). -/
def capAfterWsPlus (cls : Char → Bool) (r : List Char) : Option (List Char) :=
  let w := r.takeWhile isWsChar
  if w.isEmpty then none
  else
    let cap := (r.dropWhile isWsChar).takeWhile cls
    if !cap.isEmpty then some cap
    else
      match ((w.drop 1).reverse.dropWhile (fun c => !(cls c))) with
      | [] => none
      | c :: _ => some [c]

/-- Capture of `\s+(cls*)` (the star capture succeeds as soon as `\s+`
does). -/
def capAfterWsStar (cls : Char → Bool) (r : List Char) : Option (List Char) :=
  if (r.takeWhile isWsChar).isEmpty then none
  else some ((r.dropWhile isWsChar).takeWhile cls)

/-- Match of `/[Xx]key?[:.]\s+([^.]+)/` anchored at `l`: an initial letter in
either case, a fixed lowercase stem, an optional final letter, then `[:.]`
and the captured sentence. -/
def plainFieldTryAt (c0 lower0 : Char) (stem : List Char) (optS : Bool)
    (star : Bool) (l : List Char) : Option (List Char) :=
  match l with
  | c :: r =>
    if (c == c0 || c == lower0) && startsWithLit stem r then
      let r2 := r.drop stem.length
      let r3 := if optS then (match r2 with | 's' :: t => t | _ => r2) else r2
      match r3 with
      | ':' :: r4 => if star then capAfterWsStar clsNoDot r4
                     else capAfterWsPlus clsNoDot r4
      | '.' :: r4 => if star then capAfterWsStar clsNoDot r4
                     else capAfterWsPlus clsNoDot r4
      | _ => none
    else none
  | [] => none

/-- Search for a plain-branch field regex. -/
def plainFieldSearch (c0 lower0 : Char) (stem : List Char) (optS : Bool)
    (star : Bool) : List Char → Option (List Char)
  | [] => none
  | c :: rest =>
    match plainFieldTryAt c0 lower0 stem optS star (c :: rest) with
    | some cap => some cap
    | none => plainFieldSearch c0 lower0 stem optS star rest

/-- The plain numbered-list fallback (lines 287–304): every nonempty piece is
mapped to a component, with defaults everywhere a pattern fails. -/
def parseBlockPlain (s : List Char) : Component :=
  { type :=
      match plainTypeMatch s with
      | some cap => trimL cap
      | none => "Composant électrique".data,
    confidence :=
      match
        (match plainConfSearch s with
         | some ds => some ds
         | none => parenPctSearch s) with
      | some ds => (digitsToNat ds : ℚ) / 100
      | none => 4 / 5,
    details :=
      match
        (match plainFieldSearch 'D' 'd' "etail".data true false s with
         | some cap => some cap
         | none => plainFieldSearch 'D' 'd' "escription".data false false s) with
      | some cap => trimL cap
      | none => "Information non disponible".data,
    condition :=
      match
        (match plainFieldSearch 'C' 'c' "ondition".data false false s with
         | some cap => some cap
         | none => plainFieldSearch 'É' 'E' "tat".data false false s) with
      | some cap => trimL cap
      | none => "État inconnu".data,
    risks :=
      match
        (match plainFieldSearch 'R' 'r' "isk".data true true s with
         | some cap => some cap
         | none => plainFieldSearch 'R' 'r' "isque".data true true s) with
      | some cap => trimL cap
      | none => "Risques non identifiés".data }

/-- The property-name / disclaimer / generic-type filter on a lowercased
type (lines 312–335). -/
def keepType (t : List Char) : Bool :=
  let isPropertyName :=
    t = "confidence".data || t = "details".data || t = "condition".data ||
    t = "risks".data || t = "confiance".data || t = "détails".data ||
    t = "risques".data
  let isDisclaimer :=
    containsSub t "unable".data || containsSub t "sorry".data ||
    containsSub t "cannot".data || containsSub t "disclaimer".data
  let isGenericType := t = "component type".data
  !isPropertyName && !isDisclaimer && !isGenericType &&
    !(t = "composant électrique".data)

/-- Component filter: keep a component when its lowercased type passes. -/
def keepComp (comp : Component) : Bool := keepType (lcL comp.type)

/-- The near-duplicate test on two lowercased type names (lines 348–371). -/
def typeDup (el nl : List Char) : Bool :=
  el = nl ||
  (containsSub el "pole".data && containsSub nl "pole".data) ||
  (containsSub el "poteau".data && containsSub nl "poteau".data) ||
  (containsSub el "line".data && containsSub nl "line".data) ||
  (containsSub el "wire".data && containsSub nl "wire".data) ||
  (containsSub el "ligne".data && containsSub nl "ligne".data) ||
  (containsSub el "câble".data && containsSub nl "câble".data) ||
  (containsSub el "transformer".data && containsSub nl "transformer".data) ||
  (containsSub el "transformateur".data && containsSub nl "transformateur".data)

/-- `isDuplicate` check of the dedup pass. -/
def isDupOf (existing new_ : Component) : Bool :=
  typeDup (lcL existing.type) (lcL new_.type)

/-- The dedup pass (lines 340–387): keep the first of each near-duplicate
category. -/
def dedupComponents (l : List Component) : List Component :=
  l.foldl
    (fun uniq comp =>
      if uniq.any (fun e => isDupOf e comp) then uniq else uniq ++ [comp]) []

/-- The component-extraction slice of `analyzeImage` (lines 84–398): clean
the disclaimers, extract via the numbered-markdown branch or the unnumbered
-markdown branch, fall back to the plain numbered split when nothing was
extracted, filter property names / disclaimers / generic types, and collapse
near-duplicates.  (The subsequent annotation synthesis does not alter the
component list.) -/
def extractComponents (content : List Char) : List Component :=
  let cleaned := cleanDisclaimers content
  let extracted0 : List Component :=
    if hasNumberedList cleaned then
      (splitNumbered cleaned).map parseBlockNumbered
    else
      (mdMatches cleaned).filterMap parseBlockMd
  let extracted1 :=
    if extracted0.isEmpty then (splitNumbered cleaned).map parseBlockPlain
    else extracted0
  dedupComponents (extracted1.filter keepComp)

/-- Parameters of one item of a well-formed numbered markdown reply: the
component type, the confidence digits and the three free-text fields. -/
structure ItemParams where
  ty : List Char
  conf : List Char
  det : List Char
  cnd : List Char
  rsk : List Char

/-- Template chunk `**: ` + newline + `   - **Confidence**: ` following the
type name. -/
def tplConf : List Char := '*' :: '*' :: ':' :: ' ' :: '\n' :: "   - **Confidence**: ".data

/-- Template chunk `%` + newline + `   - **Details**: `. -/
def tplDet : List Char := '%' :: '\n' :: "   - **Details**: ".data

/-- Template chunk newline + `   - **Condition**: `. -/
def tplCnd : List Char := '\n' :: "   - **Condition**: ".data

/-- Template chunk newline + `   - **Risks**: `. -/
def tplRsk : List Char := '\n' :: "   - **Risks**: ".data

/-- The body of one well-formed item, after its `N. ` number prefix: exactly
the shape requested by the prompt template of `analyzeImage`. -/
def blockText (q : ItemParams) : List Char :=
  '*' :: '*' ::
    (q.ty ++ (tplConf ++ (q.conf ++ (tplDet ++ (q.det ++ (tplCnd ++
      (q.cnd ++ (tplRsk ++ (q.rsk ++ ['\n', '\n'])))))))))

/-- One numbered item: `N. ` followed by the block body. -/
def renderItem (n : Char) (q : ItemParams) : List Char :=
  n :: '.' :: ' ' :: blockText q

/-- A well-formed three-item numbered markdown reply. -/
def renderThree (p1 p2 p3 : ItemParams) : List Char :=
  renderItem '1' p1 ++ (renderItem '2' p2 ++ renderItem '3' p3)

/-- A type name is plain: nonempty, ASCII letters only. -/
def alphaOnly (l : List Char) : Bool := !l.isEmpty && l.all Char.isAlpha

/-- A free-text field is plain: nonempty, ASCII letters and single spaces
with letters at both ends. -/
def niceText (l : List Char) : Bool :=
  !l.isEmpty && l.all (fun c => c.isAlpha || c == ' ') &&
  (match l with | c :: _ => c.isAlpha | [] => false) &&
  (match l.getLast? with | some c => c.isAlpha | none => false)

/-- Well-formedness of one item: a plain type name that is a genuine
component label (passes the parser's own property-name/disclaimer filter and
is not a case variant of a field keyword), a nonempty digit string for the
confidence, and plain free-text fields. -/
def validItem (q : ItemParams) : Bool :=
  alphaOnly q.ty && !q.conf.isEmpty && q.conf.all isDigitChar &&
  niceText q.det && niceText q.cnd && niceText q.rsk &&
  keepType (lcL q.ty) &&
  !(lcL q.ty = "confidence".data) && !(lcL q.ty = "confidense".data) &&
  !(lcL q.ty = "details".data) && !(lcL q.ty = "condition".data) &&
  !(lcL q.ty = "risks".data)

/-- Well-formedness of the three-item reply: each item is well formed and the
three type names are pairwise not near-duplicates in the parser's sense. -/
def validThree (p1 p2 p3 : ItemParams) : Bool :=
  validItem p1 && validItem p2 && validItem p3 &&
  !(typeDup (lcL p1.ty) (lcL p2.ty)) &&
  !(typeDup (lcL p1.ty) (lcL p3.ty)) &&
  !(typeDup (lcL p2.ty) (lcL p3.ty))

/-- The component the parser is expected to extract from a well-formed item. -/
def expectedComp (q : ItemParams) : Component :=
  { type := q.ty, confidence := (digitsToNat q.conf : ℚ) / 100,
    details := q.det, condition := q.cnd, risks := q.rsk }

/-- A reply consisting only of the two disclaimer sentences the prompt warns
the model against. -/
def disclaimerReply : List Char :=
  phrase1 ++ ('.' :: ' ' :: phrase2 ++ ['.'])

lemma toNat_ofNat_valid (m : Nat) (h : m.isValidChar) :
    (Char.ofNat m).toNat = m := by
  unfold Char.ofNat
  rw [dif_pos h]
  unfold Char.ofNatAux Char.toNat
  show (UInt32.mk (BitVec.ofNatLt m _)).toNat = m
  rw [UInt32.toNat]
  exact BitVec.toNat_ofNatLt m _

lemma toLower_eq_char {c d : Char} (h : Char.toLower c = d) :
    c = d ∨ (97 ≤ d.toNat ∧ d.toNat ≤ 122) := by
  unfold Char.toLower at h
  simp only at h
  by_cases hc : c.toNat ≥ 65 ∧ c.toNat ≤ 90
  · rw [if_pos hc] at h
    right
    subst h
    have hv : (Char.toNat c + 32).isValidChar := Or.inl (by omega)
    rw [toNat_ofNat_valid _ hv]
    omega
  · rw [if_neg hc] at h
    left
    exact h

lemma toLower_ne {c d : Char} (h1 : c ≠ d)
    (h2 : ¬(97 ≤ d.toNat ∧ d.toNat ≤ 122)) : Char.toLower c ≠ d :=
  fun h => (toLower_eq_char h).elim h1 h2

lemma class_ne {p : Char → Bool} {c d : Char} (h : p c = true)
    (hd : p d = false) : c ≠ d := by
  intro he
  rw [he, hd] at h
  cases h

lemma takeWhile_append_all {p : Char → Bool} {l1 : List Char}
    (h : ∀ c ∈ l1, p c = true) (l2 : List Char) :
    (l1 ++ l2).takeWhile p = l1 ++ l2.takeWhile p := by
  induction l1 with
  | nil => simp
  | cons c rest ih =>
    simp only [List.cons_append, List.takeWhile_cons,
      h c (List.mem_cons_self c rest), if_true, List.cons.injEq, true_and]
    exact ih (fun x hx => h x (List.mem_cons_of_mem c hx))

lemma dropWhile_append_all {p : Char → Bool} {l1 : List Char}
    (h : ∀ c ∈ l1, p c = true) (l2 : List Char) :
    (l1 ++ l2).dropWhile p = l2.dropWhile p := by
  induction l1 with
  | nil => simp
  | cons c rest ih =>
    simp only [List.cons_append, List.dropWhile_cons,
      h c (List.mem_cons_self c rest), if_true]
    exact ih (fun x hx => h x (List.mem_cons_of_mem c hx))

lemma startsWithCI_cons_false {n : Char} {ns : List Char} {c : Char}
    {cs : List Char} (h : Char.toLower n ≠ Char.toLower c) :
    startsWithCI (n :: ns) (c :: cs) = false := by
  simp [startsWithCI, beq_eq_false_iff_ne.mpr h]

lemma startsWithLit_cons_false {n : Char} {ns : List Char} {c : Char}
    {cs : List Char} (h : n ≠ c) :
    startsWithLit (n :: ns) (c :: cs) = false := by
  simp [startsWithLit, beq_eq_false_iff_ne.mpr h]

/-- A character of a plain chunk (letter, digit or space) cannot CI-match a
star. -/
lemma toLower_ne_star {c : Char} (hc : c ≠ '*') :
    Char.toLower '*' ≠ Char.toLower c := by
  show '*' ≠ Char.toLower c
  intro h
  exact toLower_ne hc (by decide) h.symm

lemma startsWithCI_mem :
    ∀ {needle hay : List Char}, startsWithCI needle hay = true →
      ∀ {c : Char}, c ∈ needle →
        ∃ x ∈ hay, Char.toLower x = Char.toLower c := by
  intro needle
  induction needle with
  | nil =>
    intro hay _ c hc
    cases hc
  | cons n ns ih =>
    intro hay h c hc
    cases hay with
    | nil => simp [startsWithCI] at h
    | cons x xs =>
      simp only [startsWithCI, Bool.and_eq_true, beq_iff_eq] at h
      rcases List.mem_cons.mp hc with rfl | hc'
      · exact ⟨x, List.mem_cons_self x xs, h.1.symm⟩
      · obtain ⟨y, hy, hyl⟩ := ih h.2 hc'
        exact ⟨y, List.mem_cons_of_mem _ hy, hyl⟩

lemma replaceFirstCI_eq_self {phrase l : List Char} {c : Char} (hc : c ∈ phrase)
    (hl : ∀ x ∈ l, Char.toLower x ≠ Char.toLower c) :
    replaceFirstCI phrase l = l := by
  induction l with
  | nil => rfl
  | cons x rest ih =>
    have hsw : startsWithCI phrase (x :: rest) = false := by
      by_contra h
      rw [Bool.not_eq_false] at h
      obtain ⟨y, hy, hyl⟩ := startsWithCI_mem h hc
      exact hl y hy hyl
    simp only [replaceFirstCI, hsw, Bool.false_eq_true, if_false]
    rw [ih (fun y hy => hl y (List.mem_cons_of_mem x hy))]

lemma cleanDisclaimers_eq_self {l : List Char}
    (h1 : ∀ x ∈ l, x ≠ apos) (h2 : ∀ x ∈ l, x ≠ ',') :
    cleanDisclaimers l = l := by
  have ha : ∀ x ∈ l, Char.toLower x ≠ Char.toLower apos := by
    intro x hx
    rw [show Char.toLower apos = apos from rfl]
    exact toLower_ne (h1 x hx) (by decide)
  have hb : ∀ x ∈ l, Char.toLower x ≠ Char.toLower ',' := by
    intro x hx
    rw [show Char.toLower ',' = ',' from rfl]
    exact toLower_ne (h2 x hx) (by decide)
  unfold cleanDisclaimers
  rw [replaceFirstCI_eq_self (show apos ∈ phrase1 by decide) ha,
    replaceFirstCI_eq_self (show ',' ∈ phrase2 by decide) hb,
    replaceFirstCI_eq_self (show apos ∈ phrase3 by decide) ha]

/-- Unpacked consequences of `validItem`. -/
structure ItemFacts (q : ItemParams) : Prop where
  tyNe : q.ty ≠ []
  tyAlpha : ∀ c ∈ q.ty, c.isAlpha = true
  confNe : q.conf ≠ []
  confDigit : ∀ c ∈ q.conf, isDigitChar c = true
  detNe : q.det ≠ []
  detAS : ∀ c ∈ q.det, c.isAlpha = true ∨ c = ' '
  detHead : ∀ c rest, q.det = c :: rest → c.isAlpha = true
  detLast : ∀ c, q.det.getLast? = some c → c.isAlpha = true
  cndNe : q.cnd ≠ []
  cndAS : ∀ c ∈ q.cnd, c.isAlpha = true ∨ c = ' '
  cndHead : ∀ c rest, q.cnd = c :: rest → c.isAlpha = true
  cndLast : ∀ c, q.cnd.getLast? = some c → c.isAlpha = true
  rskNe : q.rsk ≠ []
  rskAS : ∀ c ∈ q.rsk, c.isAlpha = true ∨ c = ' '
  rskHead : ∀ c rest, q.rsk = c :: rest → c.isAlpha = true
  rskLast : ∀ c, q.rsk.getLast? = some c → c.isAlpha = true
  keep : keepType (lcL q.ty) = true
  notConfidence : lcL q.ty ≠ "confidence".data
  notConfidense : lcL q.ty ≠ "confidense".data
  notDetails : lcL q.ty ≠ "details".data
  notCondition : lcL q.ty ≠ "condition".data
  notRisks : lcL q.ty ≠ "risks".data

lemma niceText_unpack {l : List Char} (h : niceText l = true) :
    l ≠ [] ∧ (∀ c ∈ l, c.isAlpha = true ∨ c = ' ') ∧
    (∀ c rest, l = c :: rest → c.isAlpha = true) ∧
    (∀ c, l.getLast? = some c → c.isAlpha = true) := by
  simp only [niceText, Bool.and_eq_true, Bool.not_eq_true', List.isEmpty_eq_false,
    List.all_eq_true] at h
  obtain ⟨⟨⟨hne, hall⟩, hhead⟩, hlast⟩ := h
  refine ⟨hne, ?_, ?_, ?_⟩
  · intro c hc
    have := hall c hc
    simpa using this
  · intro c rest hl
    rw [hl] at hhead
    exact hhead
  · intro c hc
    rw [hc] at hlast
    exact hlast

lemma itemFacts_of_valid {q : ItemParams} (h : validItem q = true) :
    ItemFacts q := by
  simp only [validItem, Bool.and_eq_true, Bool.not_eq_true', alphaOnly,
    List.isEmpty_eq_false, List.all_eq_true, decide_eq_false_iff_not] at h
  obtain ⟨⟨⟨⟨⟨⟨⟨⟨⟨⟨⟨⟨htyne, htyal⟩, hconfne⟩, hconfd⟩, hdet⟩, hcnd⟩, hrsk⟩,
    hkeep⟩, hnc⟩, hncs⟩, hnd⟩, hncond⟩, hnr⟩ := h
  obtain ⟨hdetne, hdetas, hdethead, hdetlast⟩ := niceText_unpack hdet
  obtain ⟨hcndne, hcndas, hcndhead, hcndlast⟩ := niceText_unpack hcnd
  obtain ⟨hrskne, hrskas, hrskhead, hrsklast⟩ := niceText_unpack hrsk
  exact
    { tyNe := htyne, tyAlpha := htyal
      confNe := hconfne, confDigit := hconfd
      detNe := hdetne, detAS := hdetas, detHead := hdethead, detLast := hdetlast
      cndNe := hcndne, cndAS := hcndas, cndHead := hcndhead, cndLast := hcndlast
      rskNe := hrskne, rskAS := hrskas, rskHead := hrskhead, rskLast := hrsklast
      keep := hkeep, notConfidence := hnc, notConfidense := hncs
      notDetails := hnd, notCondition := hncond, notRisks := hnr }

lemma alpha_not_digit {c : Char} (h : c.isAlpha = true) :
    isDigitChar c = false := by
  unfold isDigitChar Char.isDigit
  unfold Char.isAlpha Char.isUpper Char.isLower at h
  simp only [Bool.or_eq_true, Bool.and_eq_true, decide_eq_true_eq] at h
  by_contra hd
  rw [Bool.not_eq_false] at hd
  simp only [Bool.and_eq_true, decide_eq_true_eq] at hd
  simp only [UInt32.le_def, BitVec.le_def] at h hd
  norm_num at h hd
  omega

lemma isWsChar_false_of_class {p : Char → Bool} {c : Char} (h : p c = true)
    (h1 : p ' ' = false) (h2 : p '\t' = false) (h3 : p '\n' = false)
    (h4 : p '\r' = false) (h5 : p (Char.ofNat 11) = false)
    (h6 : p (Char.ofNat 12) = false) : isWsChar c = false := by
  simp [isWsChar, beq_eq_false_iff_ne.mpr (class_ne h h1),
    beq_eq_false_iff_ne.mpr (class_ne h h2),
    beq_eq_false_iff_ne.mpr (class_ne h h3),
    beq_eq_false_iff_ne.mpr (class_ne h h4),
    beq_eq_false_iff_ne.mpr (class_ne h h5),
    beq_eq_false_iff_ne.mpr (class_ne h h6)]

lemma alpha_isWs_false {c : Char} (h : c.isAlpha = true) : isWsChar c = false :=
  isWsChar_false_of_class h (by decide) (by decide) (by decide) (by decide)
    (by decide) (by decide)

lemma digit_isWs_false {c : Char} (h : isDigitChar c = true) :
    isWsChar c = false :=
  isWsChar_false_of_class h (by decide) (by decide) (by decide) (by decide)
    (by decide) (by decide)

/-- Derived facts for a character of a plain field (letter or space). -/
lemma alphaSpace_not_digit {c : Char} (h : c.isAlpha = true ∨ c = ' ') :
    isDigitChar c = false := by
  rcases h with h | rfl
  · exact alpha_not_digit h
  · decide

lemma alphaSpace_ne {c d : Char} (h : c.isAlpha = true ∨ c = ' ')
    (hd : Char.isAlpha d = false) (hd2 : d ≠ ' ') : c ≠ d := by
  rcases h with h | rfl
  · exact class_ne h hd
  · exact fun he => hd2 he.symm

lemma splitStep_plain_nodigit {o a c} (hc : isDigitChar c = false) :
    splitStep ⟨o, a, .plain⟩ c = ⟨o, c :: a, .plain⟩ := by
  simp [splitStep, stepPlain, hc]

lemma foldl_splitStep_nodigit {xs : List Char}
    (h : ∀ c ∈ xs, isDigitChar c = false) :
    ∀ o a, xs.foldl splitStep ⟨o, a, .plain⟩ = ⟨o, xs.reverse ++ a, .plain⟩ := by
  induction xs with
  | nil => intro o a; simp
  | cons c rest ih =>
    intro o a
    simp only [List.foldl_cons]
    rw [splitStep_plain_nodigit (h c (List.mem_cons_self c rest))]
    rw [ih (fun x hx => h x (List.mem_cons_of_mem c hx)) o (c :: a)]
    simp

lemma foldl_splitStep_digits_go {xs : List Char}
    (h : ∀ c ∈ xs, isDigitChar c = true) :
    ∀ o a ds, xs.foldl splitStep ⟨o, a, .digits ds⟩ =
      ⟨o, a, .digits (xs.reverse ++ ds)⟩ := by
  induction xs with
  | nil => intro o a ds; simp
  | cons c rest ih =>
    intro o a ds
    simp only [List.foldl_cons]
    rw [show splitStep ⟨o, a, .digits ds⟩ c = ⟨o, a, .digits (c :: ds)⟩ from by
      simp [splitStep, h c (List.mem_cons_self c rest)]]
    rw [ih (fun x hx => h x (List.mem_cons_of_mem c hx)) o a (c :: ds)]
    simp

lemma foldl_splitStep_digits {xs : List Char} (hne : xs ≠ [])
    (h : ∀ c ∈ xs, isDigitChar c = true) :
    ∀ o a, xs.foldl splitStep ⟨o, a, .plain⟩ = ⟨o, a, .digits xs.reverse⟩ := by
  intro o a
  cases xs with
  | nil => exact absurd rfl hne
  | cons c rest =>
    simp only [List.foldl_cons]
    rw [show splitStep ⟨o, a, .plain⟩ c = ⟨o, a, .digits [c]⟩ from by
      simp [splitStep, stepPlain, h c (List.mem_cons_self c rest)]]
    rw [foldl_splitStep_digits_go (fun x hx => h x (List.mem_cons_of_mem c hx))
      o a [c]]
    simp

lemma splitStep_digits_flush {o a ds c} (h1 : isDigitChar c = false)
    (h2 : c ≠ '.') :
    splitStep ⟨o, a, .digits ds⟩ c = ⟨o, c :: (ds ++ a), .plain⟩ := by
  simp [splitStep, stepPlain, h1, beq_eq_false_iff_ne.mpr h2]

lemma splitStep_start_digit {o a n} (hn : isDigitChar n = true) :
    splitStep ⟨o, a, .plain⟩ n = ⟨o, a, .digits [n]⟩ := by
  simp [splitStep, stepPlain, hn]

lemma splitStep_dot {o a ds} :
    splitStep ⟨o, a, .digits ds⟩ '.' = ⟨o, a, .dot ds⟩ := by
  simp [splitStep, show isDigitChar '.' = false from by decide]

lemma splitStep_dot_ws {o a ds} :
    splitStep ⟨o, a, .dot ds⟩ ' ' = ⟨o ++ [a.reverse], [], .ws⟩ := by
  simp [splitStep, show isWsChar ' ' = true from by decide]

lemma splitStep_ws_exit {o a c} (h1 : isWsChar c = false)
    (h2 : isDigitChar c = false) :
    splitStep ⟨o, a, .ws⟩ c = ⟨o, c :: a, .plain⟩ := by
  simp [splitStep, stepPlain, h1, h2]

lemma foldl_splitStep_nodigit_app {xs : List Char}
    (h : ∀ c ∈ xs, isDigitChar c = false) (ys : List Char) (o a) :
    (xs ++ ys).foldl splitStep ⟨o, a, .plain⟩ =
      ys.foldl splitStep ⟨o, xs.reverse ++ a, .plain⟩ := by
  rw [List.foldl_append, foldl_splitStep_nodigit h]

lemma foldl_splitStep_digits_app {xs : List Char} (hne : xs ≠ [])
    (h : ∀ c ∈ xs, isDigitChar c = true) (ys : List Char) (o a) :
    (xs ++ ys).foldl splitStep ⟨o, a, .plain⟩ =
      ys.foldl splitStep ⟨o, a, .digits xs.reverse⟩ := by
  rw [List.foldl_append, foldl_splitStep_digits hne h]

lemma foldl_blockText {q : ItemParams} (hf : ItemFacts q) (o : List (List Char))
    (a : List Char) :
    (blockText q).foldl splitStep ⟨o, a, .plain⟩ =
      ⟨o, (blockText q).reverse ++ a, .plain⟩ := by
  have hty : ∀ c ∈ q.ty, isDigitChar c = false :=
    fun c hc => alpha_not_digit (hf.tyAlpha c hc)
  have hdet : ∀ c ∈ q.det, isDigitChar c = false :=
    fun c hc => alphaSpace_not_digit (hf.detAS c hc)
  have hcnd : ∀ c ∈ q.cnd, isDigitChar c = false :=
    fun c hc => alphaSpace_not_digit (hf.cndAS c hc)
  have hrsk : ∀ c ∈ q.rsk, isDigitChar c = false :=
    fun c hc => alphaSpace_not_digit (hf.rskAS c hc)
  rw [show blockText q = '*' :: '*' ::
    (q.ty ++ (tplConf ++ (q.conf ++ (tplDet ++ (q.det ++ (tplCnd ++
      (q.cnd ++ (tplRsk ++ (q.rsk ++ ['\n', '\n']))))))))) from rfl]
  simp only [List.foldl_cons]
  rw [splitStep_plain_nodigit (by decide), splitStep_plain_nodigit (by decide)]
  rw [foldl_splitStep_nodigit_app hty]
  rw [foldl_splitStep_nodigit_app (by decide)]
  rw [foldl_splitStep_digits_app hf.confNe hf.confDigit]
  rw [show ∀ Y : List Char, tplDet ++ Y =
    '%' :: '\n' :: ("   - **Details**: ".data ++ Y) from fun Y => rfl]
  simp only [List.foldl_cons]
  rw [splitStep_digits_flush (by decide) (by decide)]
  rw [splitStep_plain_nodigit (by decide)]
  rw [foldl_splitStep_nodigit_app (by decide)]
  rw [foldl_splitStep_nodigit_app hdet]
  rw [show ∀ Y : List Char, tplCnd ++ Y =
    '\n' :: ("   - **Condition**: ".data ++ Y) from fun Y => rfl]
  simp only [List.foldl_cons]
  rw [splitStep_plain_nodigit (by decide)]
  rw [foldl_splitStep_nodigit_app (by decide)]
  rw [foldl_splitStep_nodigit_app hcnd]
  rw [show ∀ Y : List Char, tplRsk ++ Y =
    '\n' :: ("   - **Risks**: ".data ++ Y) from fun Y => rfl]
  simp only [List.foldl_cons]
  rw [splitStep_plain_nodigit (by decide)]
  rw [foldl_splitStep_nodigit_app (by decide)]
  rw [foldl_splitStep_nodigit_app hrsk]
  simp only [List.foldl_cons, List.foldl_nil]
  rw [splitStep_plain_nodigit (by decide), splitStep_plain_nodigit (by decide)]
  simp [tplConf, tplDet, tplCnd, tplRsk, List.reverse_append, List.append_assoc]

lemma foldl_ws_eq_plain {c : Char} (h1 : isWsChar c = false)
    (h2 : isDigitChar c = false) (rest : List Char) (o : List (List Char)) :
    (c :: rest).foldl splitStep ⟨o, [], .ws⟩ =
      (c :: rest).foldl splitStep ⟨o, [], .plain⟩ := by
  simp only [List.foldl_cons]
  rw [splitStep_ws_exit h1 h2, splitStep_plain_nodigit h2]

lemma foldl_blockText_ws {q : ItemParams} (hf : ItemFacts q)
    (o : List (List Char)) :
    (blockText q).foldl splitStep ⟨o, [], .ws⟩ =
      ⟨o, (blockText q).reverse, .plain⟩ := by
  have h := foldl_blockText hf o []
  rw [List.append_nil] at h
  rw [← h]
  rw [show blockText q = '*' :: ('*' ::
    (q.ty ++ (tplConf ++ (q.conf ++ (tplDet ++ (q.det ++ (tplCnd ++
      (q.cnd ++ (tplRsk ++ (q.rsk ++ ['\n', '\n'])))))))))) from rfl]
  exact foldl_ws_eq_plain (by decide) (by decide) _ o

lemma splitNumbered_renderThree (p1 p2 p3 : ItemParams) (h1 : ItemFacts p1)
    (h2 : ItemFacts p2) (h3 : ItemFacts p3) :
    splitNumbered (renderThree p1 p2 p3) =
      [blockText p1, blockText p2, blockText p3] := by
  rw [splitNumbered]
  rw [show renderThree p1 p2 p3 =
    ('1' :: '.' :: ' ' :: blockText p1) ++
      (('2' :: '.' :: ' ' :: blockText p2) ++
        ('3' :: '.' :: ' ' :: blockText p3)) from rfl]
  rw [List.foldl_append, List.foldl_append]
  simp only [List.foldl_cons]
  rw [splitStep_start_digit (by decide), splitStep_dot, splitStep_dot_ws]
  rw [foldl_blockText_ws h1]
  rw [splitStep_start_digit (by decide), splitStep_dot, splitStep_dot_ws]
  rw [foldl_blockText_ws h2]
  rw [splitStep_start_digit (by decide), splitStep_dot, splitStep_dot_ws]
  rw [foldl_blockText_ws h3]
  dsimp only [splitFinish]
  have hbne : ∀ r : ItemParams, (blockText r).isEmpty = false := fun r => rfl
  simp [List.filter, hbne, List.reverse_reverse]

lemma alpha_toLower_ne_star {c : Char} (h : c.isAlpha = true) :
    Char.toLower c ≠ '*' :=
  toLower_ne (class_ne h (by decide)) (by decide)

lemma alphaSpace_toLower_ne_star {c : Char} (h : c.isAlpha = true ∨ c = ' ') :
    Char.toLower c ≠ '*' := by
  rcases h with h | rfl
  · exact alpha_toLower_ne_star h
  · decide

lemma digit_toLower_ne_star {c : Char} (h : isDigitChar c = true) :
    Char.toLower c ≠ '*' :=
  toLower_ne (class_ne h (by decide)) (by decide)

lemma dropWhile_alphaspace {v : List Char}
    (has : ∀ c ∈ v, c.isAlpha = true ∨ c = ' ') :
    ∀ {d ds}, v.dropWhile isWsChar = d :: ds → d.isAlpha = true := by
  induction v with
  | nil => intro d ds h; cases h
  | cons c v' ih =>
    intro d ds h
    rw [List.dropWhile_cons] at h
    by_cases hw : isWsChar c = true
    · rw [if_pos (by simpa using hw)] at h
      exact ih (fun x hx => has x (List.mem_cons_of_mem c hx)) h
    · rw [if_neg (by simpa using hw)] at h
      rcases has c (List.mem_cons_self c v') with ha | rfl
      · cases h; exact ha
      · exact absurd (by decide) hw

lemma dropWhile_alphaspace_app {v : List Char}
    (has : ∀ c ∈ v, c.isAlpha = true ∨ c = ' ') {b : Char}
    (hb : b.isAlpha = true) (t : List Char) :
    ∃ d ds, (v ++ b :: t).dropWhile isWsChar = d :: ds ∧ d.isAlpha = true := by
  induction v with
  | nil =>
    refine ⟨b, t, ?_, hb⟩
    rw [List.nil_append, List.dropWhile_cons, if_neg (by simp [alpha_isWs_false hb])]
  | cons c v' ih =>
    rw [List.cons_append, List.dropWhile_cons]
    by_cases hw : isWsChar c = true
    · rw [if_pos (by simpa using hw)]
      exact ih (fun x hx => has x (List.mem_cons_of_mem c hx))
    · rw [if_neg (by simpa using hw)]
      rcases has c (List.mem_cons_self c v') with ha | rfl
      · exact ⟨c, _, rfl, ha⟩
      · exact absurd (by decide) hw

lemma lookahead_false_of_head_ne {l : List Char} {d : Char} {ds : List Char}
    (h : l.dropWhile isWsChar = d :: ds) (hd' : d ≠ '*') :
    lookaheadStarsOrEnd l = false := by
  rw [lookaheadStarsOrEnd, h]
  split
  · rename_i heq
    cases heq
  · rename_i x heq
    rw [List.cons.injEq] at heq
    exact absurd heq.1 hd'
  · rfl

lemma lookahead_false_of_alpha_head {l : List Char} {d : Char} {ds : List Char}
    (h : l.dropWhile isWsChar = d :: ds) (hd : d.isAlpha = true) :
    lookaheadStarsOrEnd l = false :=
  lookahead_false_of_head_ne h (class_ne hd (by decide))

lemma trimL_alpha_ends {l : List Char} {c : Char} {rest : List Char}
    (hhead : l = c :: rest) (hc : c.isAlpha = true)
    {b : Char} (hlast : l.getLast? = some b) (hb : b.isAlpha = true) :
    trimL l = l := by
  rw [trimL]
  rw [hhead, List.dropWhile_cons, if_neg (by simp [alpha_isWs_false hc]), ← hhead]
  have hrev : l.reverse.head? = some b := by
    rw [List.head?_reverse]; exact hlast
  match hl : l.reverse with
  | [] => rw [hl] at hrev; cases hrev
  | x :: xs =>
    rw [hl] at hrev
    have hx : x = b := by simpa using hrev
    subst hx
    rw [List.dropWhile_cons, if_neg (by simp [alpha_isWs_false hb]), ← hl,
      List.reverse_reverse]

lemma startsWithCI_nostar_star {lets : List Char}
    (hl : ∀ c ∈ lets, Char.toLower c ≠ '*') :
    ∀ {ty : List Char}, (∀ c ∈ ty, Char.toLower c ≠ '*') →
    ∀ {p zs : List Char},
      startsWithCI (lets ++ '*' :: p) (ty ++ '*' :: zs) = true →
      lcL ty = lcL lets ∧ startsWithCI p zs = true := by
  induction lets with
  | nil =>
    intro ty hty p zs h
    cases ty with
    | nil =>
      simp only [List.nil_append, startsWithCI, Bool.and_eq_true] at h
      exact ⟨rfl, h.2⟩
    | cons c ty' =>
      simp only [List.nil_append, List.cons_append, startsWithCI,
        Bool.and_eq_true, beq_iff_eq] at h
      exact absurd h.1.symm (hty c (List.mem_cons_self c ty'))
  | cons n lets' ih =>
    intro ty hty p zs h
    cases ty with
    | nil =>
      simp only [List.nil_append, List.cons_append, startsWithCI,
        Bool.and_eq_true, beq_iff_eq] at h
      exact absurd h.1 (hl n (List.mem_cons_self n lets'))
    | cons c ty' =>
      simp only [List.cons_append, startsWithCI, Bool.and_eq_true,
        beq_iff_eq] at h
      obtain ⟨hnc, hrest⟩ := h
      obtain ⟨hty', hp⟩ := ih (fun x hx => hl x (List.mem_cons_of_mem n hx))
        (fun x hx => hty x (List.mem_cons_of_mem c hx)) hrest
      refine ⟨?_, hp⟩
      simp only [lcL, List.map_cons]
      rw [show Char.toLower c = Char.toLower n from hnc.symm]
      exact congrArg _ (by simpa [lcL] using hty')

lemma startsWithLit_nostar_star {lets : List Char}
    (hl : ∀ c ∈ lets, c ≠ '*') :
    ∀ {ty : List Char}, (∀ c ∈ ty, c ≠ '*') →
    ∀ {p zs : List Char},
      startsWithLit (lets ++ '*' :: p) (ty ++ '*' :: zs) = true →
      ty = lets ∧ startsWithLit p zs = true := by
  induction lets with
  | nil =>
    intro ty hty p zs h
    cases ty with
    | nil =>
      simp only [List.nil_append, startsWithLit, Bool.and_eq_true] at h
      exact ⟨rfl, h.2⟩
    | cons c ty' =>
      simp only [List.nil_append, List.cons_append, startsWithLit,
        Bool.and_eq_true, beq_iff_eq] at h
      exact absurd h.1.symm (hty c (List.mem_cons_self c ty'))
  | cons n lets' ih =>
    intro ty hty p zs h
    cases ty with
    | nil =>
      simp only [List.nil_append, List.cons_append, startsWithLit,
        Bool.and_eq_true, beq_iff_eq] at h
      exact absurd h.1 (hl n (List.mem_cons_self n lets'))
    | cons c ty' =>
      simp only [List.cons_append, startsWithLit, Bool.and_eq_true,
        beq_iff_eq] at h
      obtain ⟨hnc, hrest⟩ := h
      obtain ⟨hty', hp⟩ := ih (fun x hx => hl x (List.mem_cons_of_mem n hx))
        (fun x hx => hty x (List.mem_cons_of_mem c hx)) hrest
      exact ⟨by rw [hty', hnc], hp⟩

lemma startsWithLit_append_of_take {needle : List Char} :
    ∀ {v : List Char}, startsWithLit (needle.take v.length) v = false →
    ∀ (t : List Char), startsWithLit needle (v ++ t) = false := by
  induction needle with
  | nil =>
    intro v h t
    rw [List.take_nil] at h
    cases h
  | cons n ns ih =>
    intro v h t
    cases v with
    | nil => cases h
    | cons c cs =>
      simp only [List.length_cons, List.take_succ_cons, startsWithLit] at h
      rw [List.cons_append]
      rw [startsWithLit]
      cases hb : (n == c) with
      | false => rw [Bool.false_and]
      | true =>
        rw [hb, Bool.true_and] at h
        rw [Bool.true_and]
        exact ih h t

lemma startsWithCI_append_of_take {needle : List Char} :
    ∀ {v : List Char}, startsWithCI (needle.take v.length) v = false →
    ∀ (t : List Char), startsWithCI needle (v ++ t) = false := by
  induction needle with
  | nil =>
    intro v h t
    rw [List.take_nil] at h
    cases h
  | cons n ns ih =>
    intro v h t
    cases v with
    | nil => cases h
    | cons c cs =>
      simp only [List.length_cons, List.take_succ_cons, startsWithCI] at h
      rw [List.cons_append]
      rw [startsWithCI]
      cases hb : (Char.toLower n == Char.toLower c) with
      | false => rw [Bool.false_and]
      | true =>
        rw [hb, Bool.true_and] at h
        rw [Bool.true_and]
        exact ih h t

lemma containsSub_skip_chunk {needle : List Char} :
    ∀ (xs : List Char),
      (∀ v ∈ xs.tails, v ≠ [] →
        startsWithLit (needle.take v.length) v = false) →
      ∀ (t : List Char), containsSub (xs ++ t) needle = containsSub t needle := by
  intro xs
  induction xs with
  | nil => intro _ t; rfl
  | cons c xs' ih =>
    intro h t
    rw [List.cons_append, containsSub]
    have hsw : startsWithLit needle (c :: (xs' ++ t)) = false :=
      startsWithLit_append_of_take
        (h (c :: xs') (by simp [List.mem_tails]) (by simp)) t
    rw [hsw, Bool.false_or]
    exact ih (fun v hv hne =>
      h v (by
        rw [List.mem_tails] at hv ⊢
        exact hv.trans (List.suffix_cons c xs')) hne) t

lemma tails_nonstar_lit {xs : List Char} (h : ∀ c ∈ xs, c ≠ '*')
    {ks : List Char} :
    ∀ v ∈ xs.tails, v ≠ [] →
      startsWithLit (('*' :: ks).take v.length) v = false := by
  intro v hv hne
  rw [List.mem_tails] at hv
  cases v with
  | nil => exact absurd rfl hne
  | cons c cs =>
    simp only [List.length_cons, List.take_succ_cons]
    exact startsWithLit_cons_false
      (fun he => h c (hv.subset (List.mem_cons_self c cs)) he.symm)

lemma tails_nonstar_ci {xs : List Char}
    (h : ∀ c ∈ xs, Char.toLower c ≠ '*') {ks : List Char} :
    ∀ v ∈ xs.tails, v ≠ [] →
      startsWithCI (('*' :: ks).take v.length) v = false := by
  intro v hv hne
  rw [List.mem_tails] at hv
  cases v with
  | nil => exact absurd rfl hne
  | cons c cs =>
    simp only [List.length_cons, List.take_succ_cons]
    exact startsWithCI_cons_false
      (by
        rw [show Char.toLower '*' = '*' from rfl]
        exact fun he => h c (hv.subset (List.mem_cons_self c cs)) he.symm)

lemma confTryAt_eq_none {c : Char} {l : List Char}
    (h1 : startsWithCI "**confidence**".data (c :: l) = false)
    (h2 : startsWithCI "**confidense**".data (c :: l) = false) :
    confTryAt (c :: l) = none := by
  rw [confTryAt, confKeyAt, if_neg (by simp [h1]), if_neg (by simp [h2])]

lemma confSearch_skip_chunk :
    ∀ (xs : List Char),
      (∀ v ∈ xs.tails, v ≠ [] →
        startsWithCI ("**confidence**".data.take v.length) v = false ∧
        startsWithCI ("**confidense**".data.take v.length) v = false) →
      ∀ (t : List Char), confSearch (xs ++ t) = confSearch t := by
  intro xs
  induction xs with
  | nil => intro _ t; rfl
  | cons c xs' ih =>
    intro h t
    have hcur := h (c :: xs') (by simp [List.mem_tails]) (by simp)
    have hnone : confTryAt (c :: (xs' ++ t)) = none :=
      confTryAt_eq_none (startsWithCI_append_of_take hcur.1 t)
        (startsWithCI_append_of_take hcur.2 t)
    rw [List.cons_append, confSearch, hnone]
    exact ih (fun v hv hne =>
      h v (by
        rw [List.mem_tails] at hv ⊢
        exact hv.trans (List.suffix_cons c xs')) hne) t

lemma fieldTryAt_eq_none {key : List Char} {c : Char} {l : List Char}
    (h : startsWithCI key (c :: l) = false) :
    fieldTryAt key (c :: l) = none := by
  rw [fieldTryAt, if_neg (by simp [h])]

lemma fieldSearch_skip_chunk {key : List Char} :
    ∀ (xs : List Char),
      (∀ v ∈ xs.tails, v ≠ [] →
        startsWithCI (key.take v.length) v = false) →
      ∀ (t : List Char), fieldSearch key (xs ++ t) = fieldSearch key t := by
  intro xs
  induction xs with
  | nil => intro _ t; rfl
  | cons c xs' ih =>
    intro h t
    have hnone : fieldTryAt key (c :: (xs' ++ t)) = none :=
      fieldTryAt_eq_none (startsWithCI_append_of_take
        (h (c :: xs') (by simp [List.mem_tails]) (by simp)) t)
    rw [List.cons_append, fieldSearch, hnone]
    exact ih (fun v hv hne =>
      h v (by
        rw [List.mem_tails] at hv ⊢
        exact hv.trans (List.suffix_cons c xs')) hne) t

/-- The template text closing the type name (`**: ` + newline + `   - `). -/
def chTyClose : List Char := "**: \n   - ".data

/-- The template text between two fields (newline + `   - `). -/
def chMid : List Char := "\n   - ".data

/-- The template text after the confidence digits (`%` + newline + `   - `). -/
def chPct : List Char := "%\n   - ".data

/-- The confidence key with its colon and space. -/
def keyConfT : List Char := "**Confidence**: ".data

/-- The details key with its colon and space. -/
def keyDetT : List Char := "**Details**: ".data

/-- The condition key with its colon and space. -/
def keyCndT : List Char := "**Condition**: ".data

/-- The risks key with its colon and space. -/
def keyRskT : List Char := "**Risks**: ".data

/-- The block body regrouped at the template-chunk boundaries. -/
lemma blockText_chunks (q : ItemParams) : blockText q =
    '*' :: '*' :: (q.ty ++ (chTyClose ++ (keyConfT ++ (q.conf ++ (chPct ++
      (keyDetT ++ (q.det ++ (chMid ++ (keyCndT ++ (q.cnd ++ (chMid ++
        (keyRskT ++ (q.rsk ++ ['\n', '\n']))))))))))))) := rfl

lemma containsSub_step {needle : List Char} {c : Char} {rest : List Char}
    (h : startsWithLit needle (c :: rest) = false) :
    containsSub (c :: rest) needle = containsSub rest needle := by
  rw [containsSub, h, Bool.false_or]

lemma ct_p0 {ty : List Char} (hal : ∀ c ∈ ty, c.isAlpha = true)
    (zs : List Char) :
    startsWithLit "**Component Type**:".data
      ('*' :: '*' :: (ty ++ '*' :: zs)) = false := by
  by_contra hc
  rw [Bool.not_eq_false] at hc
  rw [show "**Component Type**:".data =
    '*' :: '*' :: ("Component Type".data ++ '*' :: '*' :: [':']) from rfl] at hc
  simp only [startsWithLit, Bool.and_eq_true, beq_iff_eq, true_and] at hc
  obtain ⟨hty_eq, _⟩ := startsWithLit_nostar_star (by decide)
    (fun c hc' => class_ne (hal c hc') (by decide)) hc
  have hsp : (' ' : Char) ∈ ty := by rw [hty_eq]; decide
  exact absurd (hal ' ' hsp) (by decide)

lemma ct_p1 {t0 : Char} (h : t0.isAlpha = true) (l : List Char) :
    startsWithLit "**Component Type**:".data ('*' :: t0 :: l) = false := by
  have hne : ('*' : Char) ≠ t0 := fun he => absurd h (by rw [← he]; decide)
  rw [show "**Component Type**:".data =
    '*' :: '*' :: "Component Type**:".data from rfl]
  simp [startsWithLit, beq_eq_false_iff_ne.mpr hne]

lemma block_no_ct {q : ItemParams} (hf : ItemFacts q) :
    containsSub (blockText q) "**Component Type**:".data = false := by
  obtain ⟨t0, ty', hty⟩ : ∃ t0 ty', q.ty = t0 :: ty' := by
    cases hq : q.ty with
    | nil => exact absurd hq hf.tyNe
    | cons a b => exact ⟨a, b, rfl⟩
  have ht0 : t0.isAlpha = true :=
    hf.tyAlpha t0 (by rw [hty]; exact List.mem_cons_self _ _)
  have htyStar : ∀ c ∈ q.ty, c ≠ '*' :=
    fun c hc => class_ne (hf.tyAlpha c hc) (by decide)
  have hconfStar : ∀ c ∈ q.conf, c ≠ '*' :=
    fun c hc => class_ne (hf.confDigit c hc) (by decide)
  have hdetStar : ∀ c ∈ q.det, c ≠ '*' :=
    fun c hc => alphaSpace_ne (hf.detAS c hc) (by decide) (by decide)
  have hcndStar : ∀ c ∈ q.cnd, c ≠ '*' :=
    fun c hc => alphaSpace_ne (hf.cndAS c hc) (by decide) (by decide)
  have hrskStar : ∀ c ∈ q.rsk, c ≠ '*' :=
    fun c hc => alphaSpace_ne (hf.rskAS c hc) (by decide) (by decide)
  rw [blockText_chunks]
  have hp0 : startsWithLit "**Component Type**:".data
      ('*' :: '*' :: (q.ty ++ (chTyClose ++ (keyConfT ++ (q.conf ++ (chPct ++
        (keyDetT ++ (q.det ++ (chMid ++ (keyCndT ++ (q.cnd ++ (chMid ++
          (keyRskT ++ (q.rsk ++ ['\n', '\n'])))))))))))))) = false := by
    exact ct_p0 hf.tyAlpha _
  rw [containsSub_step hp0]
  have hp1 : startsWithLit "**Component Type**:".data
      ('*' :: (q.ty ++ (chTyClose ++ (keyConfT ++ (q.conf ++ (chPct ++
        (keyDetT ++ (q.det ++ (chMid ++ (keyCndT ++ (q.cnd ++ (chMid ++
          (keyRskT ++ (q.rsk ++ ['\n', '\n'])))))))))))))) = false := by
    rw [hty]
    exact ct_p1 ht0 _
  rw [containsSub_step hp1]
  rw [@containsSub_skip_chunk "**Component Type**:".data q.ty
    (tails_nonstar_lit htyStar)]
  rw [@containsSub_skip_chunk "**Component Type**:".data chTyClose (by decide)]
  rw [@containsSub_skip_chunk "**Component Type**:".data keyConfT (by decide)]
  rw [@containsSub_skip_chunk "**Component Type**:".data q.conf
    (tails_nonstar_lit hconfStar)]
  rw [@containsSub_skip_chunk "**Component Type**:".data chPct (by decide)]
  rw [@containsSub_skip_chunk "**Component Type**:".data keyDetT (by decide)]
  rw [@containsSub_skip_chunk "**Component Type**:".data q.det
    (tails_nonstar_lit hdetStar)]
  rw [@containsSub_skip_chunk "**Component Type**:".data chMid (by decide)]
  rw [@containsSub_skip_chunk "**Component Type**:".data keyCndT (by decide)]
  rw [@containsSub_skip_chunk "**Component Type**:".data q.cnd
    (tails_nonstar_lit hcndStar)]
  rw [@containsSub_skip_chunk "**Component Type**:".data chMid (by decide)]
  rw [@containsSub_skip_chunk "**Component Type**:".data keyRskT (by decide)]
  rw [@containsSub_skip_chunk "**Component Type**:".data q.rsk
    (tails_nonstar_lit hrskStar)]
  decide

lemma ci_p0 {lets : List Char} (hlets : ∀ c ∈ lets, Char.toLower c ≠ '*')
    {ty : List Char} (hty : ∀ c ∈ ty, c.isAlpha = true) {p zs : List Char}
    (hc : startsWithCI ('*' :: '*' :: (lets ++ '*' :: p))
      ('*' :: '*' :: (ty ++ '*' :: zs)) = true) :
    lcL ty = lcL lets := by
  simp only [startsWithCI, Bool.and_eq_true, beq_iff_eq, true_and] at hc
  exact (startsWithCI_nostar_star hlets
    (fun c hc' => alpha_toLower_ne_star (hty c hc')) hc).1

lemma ci_p1 {t0 : Char} (h : t0.isAlpha = true) (ks l : List Char) :
    startsWithCI ('*' :: '*' :: ks) ('*' :: t0 :: l) = false := by
  simp [startsWithCI]
  intro he
  exact absurd he.symm (alpha_toLower_ne_star h)

lemma confSearch_step {c : Char} {rest : List Char}
    (h : confTryAt (c :: rest) = none) :
    confSearch (c :: rest) = confSearch rest := by
  rw [confSearch, h]

lemma confSearch_hit {c : Char} {rest ds : List Char}
    (h : confTryAt (c :: rest) = some ds) :
    confSearch (c :: rest) = some ds := by
  rw [confSearch, h]

lemma confTryAt_hit {conf : List Char} (hne : conf ≠ [])
    (hdg : ∀ c ∈ conf, isDigitChar c = true) (Z : List Char) :
    confTryAt (keyConfT ++ (conf ++ ('%' :: Z))) = some conf := by
  obtain ⟨d0, cf, hc⟩ : ∃ d0 cf, conf = d0 :: cf := by
    cases hx : conf with
    | nil => exact absurd hx hne
    | cons a b => exact ⟨a, b, rfl⟩
  have hkey : confKeyAt (keyConfT ++ (conf ++ ('%' :: Z))) =
      some (':' :: ' ' :: (conf ++ ('%' :: Z))) := rfl
  rw [confTryAt, hkey]
  dsimp only
  have hdrop1 : (':' :: ' ' :: (conf ++ ('%' :: Z))).dropWhile isWsChar =
      ':' :: ' ' :: (conf ++ ('%' :: Z)) := by
    rw [List.dropWhile_cons, if_neg (by decide)]
  rw [hdrop1]
  have hd0 : d0 ∈ conf := by
    rw [hc]
    exact List.mem_cons_self d0 cf
  have hd0w : isWsChar d0 = false := digit_isWs_false (hdg d0 hd0)
  have hdrop2 : (' ' :: (conf ++ ('%' :: Z))).dropWhile isWsChar =
      conf ++ ('%' :: Z) := by
    rw [List.dropWhile_cons, if_pos (by decide), hc, List.cons_append,
      List.dropWhile_cons, if_neg (by simp [hd0w]), ← List.cons_append, ← hc]
  show (if (List.takeWhile isDigitChar
          (List.dropWhile isWsChar (' ' :: (conf ++ '%' :: Z)))).isEmpty = true
        then none
        else
          match List.dropWhile isDigitChar
              (List.dropWhile isWsChar (' ' :: (conf ++ '%' :: Z))) with
          | '%' :: _ => some (List.takeWhile isDigitChar
              (List.dropWhile isWsChar (' ' :: (conf ++ '%' :: Z))))
          | _ => none) = some conf
  rw [hdrop2]
  have htake : (conf ++ ('%' :: Z)).takeWhile isDigitChar = conf := by
    rw [takeWhile_append_all hdg, List.takeWhile_cons, if_neg (by decide),
      List.append_nil]
  rw [htake]
  rw [if_neg (by simp [hc])]
  have hdropd : (conf ++ ('%' :: Z)).dropWhile isDigitChar = '%' :: Z := by
    rw [dropWhile_append_all hdg, List.dropWhile_cons, if_neg (by decide)]
  rw [hdropd]
  rfl

lemma conf_of_block {q : ItemParams} (hf : ItemFacts q) :
    confSearch (blockText q) = some q.conf := by
  obtain ⟨t0, ty', hty⟩ : ∃ t0 ty', q.ty = t0 :: ty' := by
    cases hq : q.ty with
    | nil => exact absurd hq hf.tyNe
    | cons a b => exact ⟨a, b, rfl⟩
  have ht0 : t0.isAlpha = true :=
    hf.tyAlpha t0 (by rw [hty]; exact List.mem_cons_self _ _)
  have htyCI : ∀ c ∈ q.ty, Char.toLower c ≠ '*' :=
    fun c hc => alpha_toLower_ne_star (hf.tyAlpha c hc)
  rw [blockText_chunks]
  have hp0 : confTryAt
      ('*' :: '*' :: (q.ty ++ (chTyClose ++ (keyConfT ++ (q.conf ++ (chPct ++
        (keyDetT ++ (q.det ++ (chMid ++ (keyCndT ++ (q.cnd ++ (chMid ++
          (keyRskT ++ (q.rsk ++ ['\n', '\n'])))))))))))))) = none := by
    refine confTryAt_eq_none ?_ ?_
    · by_contra hcc
      rw [Bool.not_eq_false] at hcc
      rw [show "**confidence**".data =
        '*' :: '*' :: ("confidence".data ++ '*' :: '*' :: []) from rfl] at hcc
      exact absurd ((ci_p0 (by decide) hf.tyAlpha hcc).trans (by decide))
        hf.notConfidence
    · by_contra hcc
      rw [Bool.not_eq_false] at hcc
      rw [show "**confidense**".data =
        '*' :: '*' :: ("confidense".data ++ '*' :: '*' :: []) from rfl] at hcc
      exact absurd ((ci_p0 (by decide) hf.tyAlpha hcc).trans (by decide))
        hf.notConfidense
  rw [confSearch_step hp0]
  have hp1 : confTryAt
      ('*' :: (q.ty ++ (chTyClose ++ (keyConfT ++ (q.conf ++ (chPct ++
        (keyDetT ++ (q.det ++ (chMid ++ (keyCndT ++ (q.cnd ++ (chMid ++
          (keyRskT ++ (q.rsk ++ ['\n', '\n'])))))))))))))) = none := by
    rw [hty]
    exact confTryAt_eq_none (by exact ci_p1 ht0 _ _) (by exact ci_p1 ht0 _ _)
  rw [confSearch_step hp1]
  rw [confSearch_skip_chunk q.ty
    (fun v hv hne => ⟨tails_nonstar_ci htyCI v hv hne,
      tails_nonstar_ci htyCI v hv hne⟩)]
  rw [confSearch_skip_chunk chTyClose (by decide)]
  exact confSearch_hit (confTryAt_hit hf.confNe hf.confDigit _)

lemma lastMem : ∀ {l : List Char} {a : Char}, l.getLast? = some a → a ∈ l := by
  intro l
  induction l with
  | nil => intro a h; cases h
  | cons c rest ih =>
    intro a h
    cases rest with
    | nil =>
      have : c = a := by simpa [List.getLast?] using h
      rw [this]
      exact List.mem_cons_self a []
    | cons d ds =>
      rw [List.getLast?_cons_cons] at h
      exact List.mem_cons_of_mem c (ih h)

lemma dropWhile_append_first {p : Char → Bool} :
    ∀ {l1 : List Char} {d : Char} {ds : List Char},
      l1.dropWhile p = d :: ds → ∀ (l2 : List Char),
      (l1 ++ l2).dropWhile p = d :: (ds ++ l2) := by
  intro l1
  induction l1 with
  | nil => intro d ds h; cases h
  | cons c r ih =>
    intro d ds h l2
    rw [List.dropWhile_cons] at h
    rw [List.cons_append, List.dropWhile_cons]
    by_cases hp : p c = true
    · rw [if_pos (by simpa using hp)] at h
      rw [if_pos (by simpa using hp)]
      exact ih h l2
    · rw [if_neg (by simpa using hp)] at h
      rw [if_neg (by simpa using hp)]
      obtain ⟨rfl, rfl⟩ : c = d ∧ r = ds := by
        rw [List.cons.injEq] at h
        exact h
      rfl

lemma getLast?_suffix {v f : List Char} (hs : v.IsSuffix f) (hv : v ≠ []) :
    f.getLast? = v.getLast? := by
  obtain ⟨u, rfl⟩ := hs
  rw [← List.head?_reverse, ← List.head?_reverse, List.reverse_append]
  cases hv' : v.reverse with
  | nil => exact absurd (by simpa using hv') hv
  | cons b bs => simp

lemma lazyCap_step {c : Char} {rest acc : List Char} (h1 : (c == '*') = false)
    (h2 : lookaheadStarsOrEnd rest = false) :
    lazyCapNonStar (c :: rest) acc = lazyCapNonStar rest (c :: acc) := by
  rw [lazyCapNonStar, if_neg (by simp [h1]), if_neg (by simp [h2])]

lemma lazyCap_stop {c : Char} {rest acc : List Char} (h1 : (c == '*') = false)
    (h2 : lookaheadStarsOrEnd rest = true) :
    lazyCapNonStar (c :: rest) acc = some ((c :: acc).reverse) := by
  rw [lazyCapNonStar, if_neg (by simp [h1]), if_pos h2]

lemma lazyCap_consume : ∀ (xs : List Char) {T : List Char},
    (∀ c ∈ xs, (c == '*') = false) →
    (∀ v, v.IsSuffix xs → v ≠ xs → lookaheadStarsOrEnd (v ++ T) = false) →
    ∀ (acc : List Char),
      lazyCapNonStar (xs ++ T) acc = lazyCapNonStar T (xs.reverse ++ acc) := by
  intro xs
  induction xs with
  | nil => intro T _ _ acc; simp
  | cons c xs' ih =>
    intro T h1 hlk acc
    have hne : xs' ≠ c :: xs' := by
      intro he
      have := congrArg List.length he
      simp at this
    rw [List.cons_append,
      lazyCap_step (h1 c (List.mem_cons_self c xs'))
        (hlk xs' (List.suffix_cons c xs') hne)]
    rw [ih (fun x hx => h1 x (List.mem_cons_of_mem c hx))
      (fun v hv hvne => hlk v (hv.trans (List.suffix_cons c xs'))
        (fun he => hvne (by
          have hlen := congrArg List.length he
          have hle := List.IsSuffix.length_le hv
          simp at hlen
          omega))) (c :: acc)]
    simp

lemma lookahead_dash_tail (zs : List Char) :
    lookaheadStarsOrEnd ('\n' :: ' ' :: ' ' :: ' ' :: '-' :: zs) = false := by
  have hdw : List.dropWhile isWsChar ('\n' :: ' ' :: ' ' :: ' ' :: '-' :: zs) =
      '-' :: zs := by
    rw [List.dropWhile_cons, if_pos (by decide), List.dropWhile_cons,
      if_pos (by decide), List.dropWhile_cons, if_pos (by decide),
      List.dropWhile_cons, if_pos (by decide), List.dropWhile_cons,
      if_neg (by decide)]
  exact lookahead_false_of_head_ne hdw (by decide)

lemma lookahead_stars (zs : List Char) :
    lookaheadStarsOrEnd (' ' :: '*' :: '*' :: zs) = true := by
  rw [lookaheadStarsOrEnd, List.dropWhile_cons, if_pos (by decide),
    List.dropWhile_cons, if_neg (by decide)]
  rfl

lemma lazyCap_tail_dash (zs acc : List Char) :
    lazyCapNonStar ('\n' :: ' ' :: ' ' :: ' ' :: '-' :: ' ' :: '*' :: '*' :: zs)
      acc = some (acc.reverse ++ ['\n', ' ', ' ', ' ', '-']) := by
  have hla1 : lookaheadStarsOrEnd
      (' ' :: ' ' :: ' ' :: '-' :: ' ' :: '*' :: '*' :: zs) = false := by
    have hdw : List.dropWhile isWsChar
        (' ' :: ' ' :: ' ' :: '-' :: ' ' :: '*' :: '*' :: zs) =
        '-' :: ' ' :: '*' :: '*' :: zs := by
      rw [List.dropWhile_cons, if_pos (by decide), List.dropWhile_cons,
        if_pos (by decide), List.dropWhile_cons, if_pos (by decide),
        List.dropWhile_cons, if_neg (by decide)]
    exact lookahead_false_of_head_ne hdw (by decide)
  have hla2 : lookaheadStarsOrEnd
      (' ' :: ' ' :: '-' :: ' ' :: '*' :: '*' :: zs) = false := by
    have hdw : List.dropWhile isWsChar
        (' ' :: ' ' :: '-' :: ' ' :: '*' :: '*' :: zs) =
        '-' :: ' ' :: '*' :: '*' :: zs := by
      rw [List.dropWhile_cons, if_pos (by decide), List.dropWhile_cons,
        if_pos (by decide), List.dropWhile_cons, if_neg (by decide)]
    exact lookahead_false_of_head_ne hdw (by decide)
  have hla3 : lookaheadStarsOrEnd (' ' :: '-' :: ' ' :: '*' :: '*' :: zs) =
      false := by
    have hdw : List.dropWhile isWsChar
        (' ' :: '-' :: ' ' :: '*' :: '*' :: zs) =
        '-' :: ' ' :: '*' :: '*' :: zs := by
      rw [List.dropWhile_cons, if_pos (by decide), List.dropWhile_cons,
        if_neg (by decide)]
    exact lookahead_false_of_head_ne hdw (by decide)
  have hla4 : lookaheadStarsOrEnd ('-' :: ' ' :: '*' :: '*' :: zs) = false := by
    have hdw : List.dropWhile isWsChar ('-' :: ' ' :: '*' :: '*' :: zs) =
        '-' :: ' ' :: '*' :: '*' :: zs := by
      rw [List.dropWhile_cons, if_neg (by decide)]
    exact lookahead_false_of_head_ne hdw (by decide)
  rw [lazyCap_step (by decide) hla1, lazyCap_step (by decide) hla2,
    lazyCap_step (by decide) hla3, lazyCap_step (by decide) hla4,
    lazyCap_stop (by decide) (lookahead_stars zs)]
  simp

lemma getLast?_of_ne_nil {f : List Char} (hne : f ≠ []) :
    ∃ b, f.getLast? = some b := by
  rw [← List.head?_reverse]
  cases hr : f.reverse with
  | nil => exact absurd (by simpa using hr) hne
  | cons b bs => exact ⟨b, by simp⟩

lemma fieldBT_some {cur cap : List Char} (h : lazyCapNonStar cur [] = some cap) :
    ∀ wsRev, fieldBT wsRev cur = some cap := by
  intro wsRev
  cases wsRev with
  | nil => rw [fieldBT, h]
  | cons c ws' => rw [fieldBT, h]

lemma fieldCap_dash {f : List Char} (hne : f ≠ [])
    (hAS : ∀ c ∈ f, c.isAlpha = true ∨ c = ' ')
    (hhead : ∀ c rest, f = c :: rest → c.isAlpha = true)
    (hlast : ∀ c, f.getLast? = some c → c.isAlpha = true) (zs : List Char) :
    fieldCapAfterColon (' ' :: (f ++
        ('\n' :: ' ' :: ' ' :: ' ' :: '-' :: ' ' :: '*' :: '*' :: zs))) =
      some (f ++ ['\n', ' ', ' ', ' ', '-']) := by
  obtain ⟨e0, f', hf⟩ : ∃ e0 f', f = e0 :: f' := by
    cases hx : f with
    | nil => exact absurd hx hne
    | cons a b => exact ⟨a, b, rfl⟩
  have he0 : e0.isAlpha = true := hhead e0 f' hf
  have htw : (' ' :: (f ++
      ('\n' :: ' ' :: ' ' :: ' ' :: '-' :: ' ' :: '*' :: '*' :: zs))).takeWhile
        isWsChar = [' '] := by
    rw [List.takeWhile_cons, if_pos (by decide), hf, List.cons_append,
      List.takeWhile_cons, if_neg (by simp [alpha_isWs_false he0])]
  have hdw : (' ' :: (f ++
      ('\n' :: ' ' :: ' ' :: ' ' :: '-' :: ' ' :: '*' :: '*' :: zs))).dropWhile
        isWsChar = f ++
        ('\n' :: ' ' :: ' ' :: ' ' :: '-' :: ' ' :: '*' :: '*' :: zs) := by
    rw [List.dropWhile_cons, if_pos (by decide), hf, List.cons_append,
      List.dropWhile_cons, if_neg (by simp [alpha_isWs_false he0]),
      ← List.cons_append, ← hf]
  have hstar : ∀ c ∈ f, (c == '*') = false := fun c hc =>
    beq_eq_false_iff_ne.mpr (alphaSpace_ne (hAS c hc) (by decide) (by decide))
  have hlk : ∀ v, v.IsSuffix f → v ≠ f →
      lookaheadStarsOrEnd (v ++
        ('\n' :: ' ' :: ' ' :: ' ' :: '-' :: ' ' :: '*' :: '*' :: zs)) =
        false := by
    intro v hv hvne
    by_cases hvnil : v = []
    · rw [hvnil]
      exact lookahead_dash_tail (' ' :: '*' :: '*' :: zs)
    · obtain ⟨b, hb⟩ := getLast?_of_ne_nil hne
      have hbal : b.isAlpha = true := hlast b hb
      have hlast2 : v.getLast? = some b := by
        rw [← getLast?_suffix hv hvnil]
        exact hb
      obtain ⟨L, a, hva⟩ := (List.eq_nil_or_concat v).resolve_left hvnil
      rw [List.concat_eq_append] at hva
      have ha : a = b := by
        rw [hva, List.getLast?_concat] at hlast2
        simpa using hlast2
      subst ha
      have hLf : ∀ c ∈ L, c.isAlpha = true ∨ c = ' ' := by
        intro c hc
        exact hAS c (hv.subset (by rw [hva]; exact List.mem_append_left _ hc))
      obtain ⟨d, ds, hdd, hdal⟩ := dropWhile_alphaspace_app hLf hbal
        ('\n' :: ' ' :: ' ' :: ' ' :: '-' :: ' ' :: '*' :: '*' :: zs)
      have hshape : v ++
          ('\n' :: ' ' :: ' ' :: ' ' :: '-' :: ' ' :: '*' :: '*' :: zs) =
          L ++ (a :: ('\n' :: ' ' :: ' ' :: ' ' :: '-' :: ' ' :: '*' :: '*' ::
            zs)) := by
        rw [hva, List.append_assoc, List.singleton_append]
      rw [hshape]
      exact lookahead_false_of_head_ne hdd (class_ne hdal (by decide))
  have hcap := lazyCap_consume f hstar hlk []
  rw [lazyCap_tail_dash] at hcap
  simp only [List.append_nil, List.reverse_reverse] at hcap
  rw [fieldCapAfterColon, htw, hdw]
  exact fieldBT_some hcap _

lemma fieldCap_last {f : List Char} (hne : f ≠ [])
    (hAS : ∀ c ∈ f, c.isAlpha = true ∨ c = ' ')
    (hhead : ∀ c rest, f = c :: rest → c.isAlpha = true)
    (hlast : ∀ c, f.getLast? = some c → c.isAlpha = true) :
    fieldCapAfterColon (' ' :: (f ++ ['\n', '\n'])) = some f := by
  obtain ⟨e0, f', hf⟩ : ∃ e0 f', f = e0 :: f' := by
    cases hx : f with
    | nil => exact absurd hx hne
    | cons a b => exact ⟨a, b, rfl⟩
  have he0 : e0.isAlpha = true := hhead e0 f' hf
  have htw : (' ' :: (f ++ ['\n', '\n'])).takeWhile isWsChar = [' '] := by
    rw [List.takeWhile_cons, if_pos (by decide), hf, List.cons_append,
      List.takeWhile_cons, if_neg (by simp [alpha_isWs_false he0])]
  have hdw : (' ' :: (f ++ ['\n', '\n'])).dropWhile isWsChar =
      f ++ ['\n', '\n'] := by
    rw [List.dropWhile_cons, if_pos (by decide), hf, List.cons_append,
      List.dropWhile_cons, if_neg (by simp [alpha_isWs_false he0]),
      ← List.cons_append, ← hf]
  obtain ⟨L, b, hvb⟩ := (List.eq_nil_or_concat f).resolve_left hne
  rw [List.concat_eq_append] at hvb
  have hbal : b.isAlpha = true := by
    refine hlast b ?_
    rw [hvb, List.getLast?_concat]
  have hLstar : ∀ c ∈ L, (c == '*') = false := by
    intro c hc
    exact beq_eq_false_iff_ne.mpr (alphaSpace_ne
      (hAS c (by rw [hvb]; exact List.mem_append_left _ hc))
      (by decide) (by decide))
  have hlk : ∀ v, v.IsSuffix L → v ≠ L →
      lookaheadStarsOrEnd (v ++ (b :: ['\n', '\n'])) = false := by
    intro v hv _
    have hvf : ∀ c ∈ v, c.isAlpha = true ∨ c = ' ' := by
      intro c hc
      exact hAS c (by
        rw [hvb]
        exact List.mem_append_left _ (hv.subset hc))
    obtain ⟨d, ds, hdd, hdal⟩ := dropWhile_alphaspace_app hvf hbal ['\n', '\n']
    exact lookahead_false_of_head_ne hdd (class_ne hdal (by decide))
  have hshape : f ++ ['\n', '\n'] = L ++ (b :: ['\n', '\n']) := by
    rw [hvb, List.append_assoc, List.singleton_append]
  have hcap : lazyCapNonStar (f ++ ['\n', '\n']) [] = some f := by
    rw [hshape, lazyCap_consume L hLstar hlk []]
    rw [lazyCap_stop (beq_eq_false_iff_ne.mpr (class_ne hbal (by decide)))
      (by decide)]
    rw [hvb]
    simp
  rw [fieldCapAfterColon, htw, hdw]
  exact fieldBT_some hcap _

lemma fieldSearch_step {key : List Char} {c : Char} {rest : List Char}
    (h : fieldTryAt key (c :: rest) = none) :
    fieldSearch key (c :: rest) = fieldSearch key rest := by
  rw [fieldSearch, h]

lemma fieldSearch_hit {key : List Char} {c : Char} {rest cap : List Char}
    (h : fieldTryAt key (c :: rest) = some cap) :
    fieldSearch key (c :: rest) = some cap := by
  rw [fieldSearch, h]

lemma fieldTryAt_keyT {key keyT X : List Char}
    (h1 : startsWithCI key (keyT ++ X) = true)
    (h2 : (keyT ++ X).drop key.length = ':' :: ' ' :: X) :
    fieldTryAt key (keyT ++ X) = fieldCapAfterColon (' ' :: X) := by
  rw [fieldTryAt, if_pos h1, h2, List.dropWhile_cons, if_neg (by decide)]
  rfl

lemma det_of_block {q : ItemParams} (hf : ItemFacts q) :
    fieldSearch "**details**".data (blockText q) =
      some (q.det ++ ['\n', ' ', ' ', ' ', '-']) := by
  obtain ⟨t0, ty', hty⟩ : ∃ t0 ty', q.ty = t0 :: ty' := by
    cases hq : q.ty with
    | nil => exact absurd hq hf.tyNe
    | cons a b => exact ⟨a, b, rfl⟩
  have ht0 : t0.isAlpha = true :=
    hf.tyAlpha t0 (by rw [hty]; exact List.mem_cons_self _ _)
  have htyCI : ∀ c ∈ q.ty, Char.toLower c ≠ '*' :=
    fun c hc => alpha_toLower_ne_star (hf.tyAlpha c hc)
  have hconfCI : ∀ c ∈ q.conf, Char.toLower c ≠ '*' :=
    fun c hc => digit_toLower_ne_star (hf.confDigit c hc)
  rw [blockText_chunks]
  have hp0 : fieldTryAt "**details**".data
      ('*' :: '*' :: (q.ty ++ (chTyClose ++ (keyConfT ++ (q.conf ++ (chPct ++
        (keyDetT ++ (q.det ++ (chMid ++ (keyCndT ++ (q.cnd ++ (chMid ++
          (keyRskT ++ (q.rsk ++ ['\n', '\n'])))))))))))))) = none := by
    refine fieldTryAt_eq_none ?_
    by_contra hcc
    rw [Bool.not_eq_false] at hcc
    rw [show "**details**".data =
      '*' :: '*' :: ("details".data ++ '*' :: '*' :: []) from rfl] at hcc
    exact absurd ((ci_p0 (by decide) hf.tyAlpha hcc).trans (by decide))
      hf.notDetails
  rw [fieldSearch_step hp0]
  have hp1 : fieldTryAt "**details**".data
      ('*' :: (q.ty ++ (chTyClose ++ (keyConfT ++ (q.conf ++ (chPct ++
        (keyDetT ++ (q.det ++ (chMid ++ (keyCndT ++ (q.cnd ++ (chMid ++
          (keyRskT ++ (q.rsk ++ ['\n', '\n'])))))))))))))) = none := by
    rw [hty]
    exact fieldTryAt_eq_none (by exact ci_p1 ht0 _ _)
  rw [fieldSearch_step hp1]
  rw [fieldSearch_skip_chunk q.ty (tails_nonstar_ci htyCI)]
  rw [fieldSearch_skip_chunk chTyClose (by decide)]
  rw [fieldSearch_skip_chunk keyConfT (by decide)]
  rw [fieldSearch_skip_chunk q.conf (tails_nonstar_ci hconfCI)]
  rw [fieldSearch_skip_chunk chPct (by decide)]
  refine fieldSearch_hit ((fieldTryAt_keyT ?_ ?_).trans
    (fieldCap_dash hf.detNe hf.detAS hf.detHead hf.detLast _))
  · rfl
  · rfl

lemma cnd_of_block {q : ItemParams} (hf : ItemFacts q) :
    fieldSearch "**condition**".data (blockText q) =
      some (q.cnd ++ ['\n', ' ', ' ', ' ', '-']) := by
  obtain ⟨t0, ty', hty⟩ : ∃ t0 ty', q.ty = t0 :: ty' := by
    cases hq : q.ty with
    | nil => exact absurd hq hf.tyNe
    | cons a b => exact ⟨a, b, rfl⟩
  have ht0 : t0.isAlpha = true :=
    hf.tyAlpha t0 (by rw [hty]; exact List.mem_cons_self _ _)
  have htyCI : ∀ c ∈ q.ty, Char.toLower c ≠ '*' :=
    fun c hc => alpha_toLower_ne_star (hf.tyAlpha c hc)
  have hconfCI : ∀ c ∈ q.conf, Char.toLower c ≠ '*' :=
    fun c hc => digit_toLower_ne_star (hf.confDigit c hc)
  have hdetCI : ∀ c ∈ q.det, Char.toLower c ≠ '*' :=
    fun c hc => alphaSpace_toLower_ne_star (hf.detAS c hc)
  rw [blockText_chunks]
  have hp0 : fieldTryAt "**condition**".data
      ('*' :: '*' :: (q.ty ++ (chTyClose ++ (keyConfT ++ (q.conf ++ (chPct ++
        (keyDetT ++ (q.det ++ (chMid ++ (keyCndT ++ (q.cnd ++ (chMid ++
          (keyRskT ++ (q.rsk ++ ['\n', '\n'])))))))))))))) = none := by
    refine fieldTryAt_eq_none ?_
    by_contra hcc
    rw [Bool.not_eq_false] at hcc
    rw [show "**condition**".data =
      '*' :: '*' :: ("condition".data ++ '*' :: '*' :: []) from rfl] at hcc
    exact absurd ((ci_p0 (by decide) hf.tyAlpha hcc).trans (by decide))
      hf.notCondition
  rw [fieldSearch_step hp0]
  have hp1 : fieldTryAt "**condition**".data
      ('*' :: (q.ty ++ (chTyClose ++ (keyConfT ++ (q.conf ++ (chPct ++
        (keyDetT ++ (q.det ++ (chMid ++ (keyCndT ++ (q.cnd ++ (chMid ++
          (keyRskT ++ (q.rsk ++ ['\n', '\n'])))))))))))))) = none := by
    rw [hty]
    exact fieldTryAt_eq_none (by exact ci_p1 ht0 _ _)
  rw [fieldSearch_step hp1]
  rw [fieldSearch_skip_chunk q.ty (tails_nonstar_ci htyCI)]
  rw [fieldSearch_skip_chunk chTyClose (by decide)]
  rw [fieldSearch_skip_chunk keyConfT (by decide)]
  rw [fieldSearch_skip_chunk q.conf (tails_nonstar_ci hconfCI)]
  rw [fieldSearch_skip_chunk chPct (by decide)]
  rw [fieldSearch_skip_chunk keyDetT (by decide)]
  rw [fieldSearch_skip_chunk q.det (tails_nonstar_ci hdetCI)]
  rw [fieldSearch_skip_chunk chMid (by decide)]
  refine fieldSearch_hit ((fieldTryAt_keyT ?_ ?_).trans
    (fieldCap_dash hf.cndNe hf.cndAS hf.cndHead hf.cndLast _))
  · rfl
  · rfl

lemma rsk_of_block {q : ItemParams} (hf : ItemFacts q) :
    fieldSearch "**risks**".data (blockText q) = some q.rsk := by
  obtain ⟨t0, ty', hty⟩ : ∃ t0 ty', q.ty = t0 :: ty' := by
    cases hq : q.ty with
    | nil => exact absurd hq hf.tyNe
    | cons a b => exact ⟨a, b, rfl⟩
  have ht0 : t0.isAlpha = true :=
    hf.tyAlpha t0 (by rw [hty]; exact List.mem_cons_self _ _)
  have htyCI : ∀ c ∈ q.ty, Char.toLower c ≠ '*' :=
    fun c hc => alpha_toLower_ne_star (hf.tyAlpha c hc)
  have hconfCI : ∀ c ∈ q.conf, Char.toLower c ≠ '*' :=
    fun c hc => digit_toLower_ne_star (hf.confDigit c hc)
  have hdetCI : ∀ c ∈ q.det, Char.toLower c ≠ '*' :=
    fun c hc => alphaSpace_toLower_ne_star (hf.detAS c hc)
  have hcndCI : ∀ c ∈ q.cnd, Char.toLower c ≠ '*' :=
    fun c hc => alphaSpace_toLower_ne_star (hf.cndAS c hc)
  rw [blockText_chunks]
  have hp0 : fieldTryAt "**risks**".data
      ('*' :: '*' :: (q.ty ++ (chTyClose ++ (keyConfT ++ (q.conf ++ (chPct ++
        (keyDetT ++ (q.det ++ (chMid ++ (keyCndT ++ (q.cnd ++ (chMid ++
          (keyRskT ++ (q.rsk ++ ['\n', '\n'])))))))))))))) = none := by
    refine fieldTryAt_eq_none ?_
    by_contra hcc
    rw [Bool.not_eq_false] at hcc
    rw [show "**risks**".data =
      '*' :: '*' :: ("risks".data ++ '*' :: '*' :: []) from rfl] at hcc
    exact absurd ((ci_p0 (by decide) hf.tyAlpha hcc).trans (by decide))
      hf.notRisks
  rw [fieldSearch_step hp0]
  have hp1 : fieldTryAt "**risks**".data
      ('*' :: (q.ty ++ (chTyClose ++ (keyConfT ++ (q.conf ++ (chPct ++
        (keyDetT ++ (q.det ++ (chMid ++ (keyCndT ++ (q.cnd ++ (chMid ++
          (keyRskT ++ (q.rsk ++ ['\n', '\n'])))))))))))))) = none := by
    rw [hty]
    exact fieldTryAt_eq_none (by exact ci_p1 ht0 _ _)
  rw [fieldSearch_step hp1]
  rw [fieldSearch_skip_chunk q.ty (tails_nonstar_ci htyCI)]
  rw [fieldSearch_skip_chunk chTyClose (by decide)]
  rw [fieldSearch_skip_chunk keyConfT (by decide)]
  rw [fieldSearch_skip_chunk q.conf (tails_nonstar_ci hconfCI)]
  rw [fieldSearch_skip_chunk chPct (by decide)]
  rw [fieldSearch_skip_chunk keyDetT (by decide)]
  rw [fieldSearch_skip_chunk q.det (tails_nonstar_ci hdetCI)]
  rw [fieldSearch_skip_chunk chMid (by decide)]
  rw [fieldSearch_skip_chunk keyCndT (by decide)]
  rw [fieldSearch_skip_chunk q.cnd (tails_nonstar_ci hcndCI)]
  rw [fieldSearch_skip_chunk chMid (by decide)]
  refine fieldSearch_hit ((fieldTryAt_keyT ?_ ?_).trans
    (fieldCap_last hf.rskNe hf.rskAS hf.rskHead hf.rskLast))
  · rfl
  · rfl

lemma getLast?_cons_cons_eq {c : Char} {xs' : List Char} (hx : xs' ≠ []) :
    (c :: xs').getLast? = xs'.getLast? := by
  cases hxs : xs' with
  | nil => exact absurd hxs hx
  | cons d ds => rw [List.getLast?_cons_cons]

lemma collapse_inv : ∀ (xs : List Char),
    (∀ c ∈ xs, c.isAlpha = true ∨ c = ' ') →
    ∀ (o buf : List Char), (∀ x ∈ buf, x = ' ') →
    ∃ o2 buf2,
      xs.foldl collapseStep (o, buf, false) = (o2, buf2, false) ∧
      buf2 ++ o2 = xs.reverse ++ (buf ++ o) ∧
      (∀ x ∈ buf2, x = ' ') ∧
      (xs ≠ [] → (∀ b, xs.getLast? = some b → b.isAlpha = true) →
        buf2 = []) := by
  intro xs
  induction xs with
  | nil =>
    intro _ o buf hbuf
    exact ⟨o, buf, rfl, by simp, hbuf, fun hne _ => absurd rfl hne⟩
  | cons c xs' ih =>
    intro hAS o buf hbuf
    rcases hAS c (List.mem_cons_self c xs') with ha | hsp
    · have hstep : collapseStep (o, buf, false) c =
          (c :: (buf ++ o), [], false) := by
        rw [collapseStep, if_neg (by simp [alpha_isWs_false ha])]
        simp
      obtain ⟨o2, buf2, heq, hflat, hsp2, hlast2⟩ :=
        ih (fun x hx => hAS x (List.mem_cons_of_mem c hx)) (c :: (buf ++ o)) []
          (fun x hx => absurd hx (List.not_mem_nil x))
      refine ⟨o2, buf2, ?_, ?_, hsp2, ?_⟩
      · rw [List.foldl_cons, hstep]
        exact heq
      · rw [hflat]
        simp
      · intro _ hall
        by_cases hx : xs' = []
        · subst hx
          simp only [List.foldl_nil, Prod.mk.injEq] at heq
          exact heq.2.1.symm
        · refine hlast2 hx ?_
          intro b hb
          refine hall b ?_
          rw [getLast?_cons_cons_eq hx]
          exact hb
    · subst hsp
      have hstep : collapseStep (o, buf, false) ' ' = (o, ' ' :: buf, false) := by
        rw [collapseStep, if_pos (by decide)]
        simp
      obtain ⟨o2, buf2, heq, hflat, hsp2, hlast2⟩ :=
        ih (fun x hx => hAS x (List.mem_cons_of_mem ' ' hx)) o (' ' :: buf)
          (fun x hx => by
            rcases List.mem_cons.mp hx with h1 | h2
            · exact h1
            · exact hbuf x h2)
      refine ⟨o2, buf2, ?_, ?_, hsp2, ?_⟩
      · rw [List.foldl_cons, hstep]
        exact heq
      · rw [hflat]
        simp
      · intro _ hall
        by_cases hx : xs' = []
        · subst hx
          exact absurd (hall ' ' (by simp)) (by decide)
        · refine hlast2 hx ?_
          intro b hb
          refine hall b ?_
          rw [getLast?_cons_cons_eq hx]
          exact hb

lemma dash_inv : ∀ (xs : List Char),
    (∀ c ∈ xs, c.isAlpha = true ∨ c = ' ') →
    ∀ (o buf : List Char), (∀ x ∈ buf, x = ' ') →
    ∃ o2 buf2,
      xs.foldl dashStep (o, buf, false) = (o2, buf2, false) ∧
      buf2 ++ o2 = xs.reverse ++ (buf ++ o) ∧
      (∀ x ∈ buf2, x = ' ') ∧
      (xs ≠ [] → (∀ b, xs.getLast? = some b → b.isAlpha = true) →
        buf2 = []) := by
  intro xs
  induction xs with
  | nil =>
    intro _ o buf hbuf
    exact ⟨o, buf, rfl, by simp, hbuf, fun hne _ => absurd rfl hne⟩
  | cons c xs' ih =>
    intro hAS o buf hbuf
    rcases hAS c (List.mem_cons_self c xs') with ha | hsp
    · have hdash : (c == '-') = false :=
        beq_eq_false_iff_ne.mpr (class_ne ha (by decide))
      have hstep : dashStep (o, buf, false) c = (c :: (buf ++ o), [], false) := by
        rw [dashStep, if_neg (by simp), if_neg (by simp [hdash]),
          if_neg (by simp [alpha_isWs_false ha])]
      obtain ⟨o2, buf2, heq, hflat, hsp2, hlast2⟩ :=
        ih (fun x hx => hAS x (List.mem_cons_of_mem c hx)) (c :: (buf ++ o)) []
          (fun x hx => absurd hx (List.not_mem_nil x))
      refine ⟨o2, buf2, ?_, ?_, hsp2, ?_⟩
      · rw [List.foldl_cons, hstep]
        exact heq
      · rw [hflat]
        simp
      · intro _ hall
        by_cases hx : xs' = []
        · subst hx
          simp only [List.foldl_nil, Prod.mk.injEq] at heq
          exact heq.2.1.symm
        · refine hlast2 hx ?_
          intro b hb
          refine hall b ?_
          rw [getLast?_cons_cons_eq hx]
          exact hb
    · subst hsp
      have hstep : dashStep (o, buf, false) ' ' = (o, ' ' :: buf, false) := by
        rw [dashStep, if_neg (by simp), if_neg (by decide),
          if_pos (by decide)]
      obtain ⟨o2, buf2, heq, hflat, hsp2, hlast2⟩ :=
        ih (fun x hx => hAS x (List.mem_cons_of_mem ' ' hx)) o (' ' :: buf)
          (fun x hx => by
            rcases List.mem_cons.mp hx with h1 | h2
            · exact h1
            · exact hbuf x h2)
      refine ⟨o2, buf2, ?_, ?_, hsp2, ?_⟩
      · rw [List.foldl_cons, hstep]
        exact heq
      · rw [hflat]
        simp
      · intro _ hall
        by_cases hx : xs' = []
        · subst hx
          exact absurd (hall ' ' (by simp)) (by decide)
        · refine hlast2 hx ?_
          intro b hb
          refine hall b ?_
          rw [getLast?_cons_cons_eq hx]
          exact hb

lemma foldl_collapse_plain {f : List Char}
    (hAS : ∀ c ∈ f, c.isAlpha = true ∨ c = ' ') (hne : f ≠ [])
    (hlast : ∀ b, f.getLast? = some b → b.isAlpha = true) :
    f.foldl collapseStep ([], [], false) = (f.reverse, [], false) := by
  obtain ⟨o2, buf2, heq, hflat, _, hlast2⟩ :=
    collapse_inv f hAS [] [] (fun x hx => absurd hx (List.not_mem_nil x))
  have hb2 : buf2 = [] := hlast2 hne hlast
  subst hb2
  have ho2 : o2 = f.reverse := by simpa using hflat
  rw [heq, ho2]

lemma foldl_dash_plain {f : List Char}
    (hAS : ∀ c ∈ f, c.isAlpha = true ∨ c = ' ') (hne : f ≠ [])
    (hlast : ∀ b, f.getLast? = some b → b.isAlpha = true) :
    f.foldl dashStep ([], [], false) = (f.reverse, [], false) := by
  obtain ⟨o2, buf2, heq, hflat, _, hlast2⟩ :=
    dash_inv f hAS [] [] (fun x hx => absurd hx (List.not_mem_nil x))
  have hb2 : buf2 = [] := hlast2 hne hlast
  subst hb2
  have ho2 : o2 = f.reverse := by simpa using hflat
  rw [heq, ho2]

lemma collapseNL_plain {f : List Char}
    (hAS : ∀ c ∈ f, c.isAlpha = true ∨ c = ' ') (hne : f ≠ [])
    (hlast : ∀ b, f.getLast? = some b → b.isAlpha = true) :
    collapseNL f = f := by
  rw [collapseNL, foldl_collapse_plain hAS hne hlast]
  simp

lemma collapseNL_dash_tail {f : List Char}
    (hAS : ∀ c ∈ f, c.isAlpha = true ∨ c = ' ') (hne : f ≠ [])
    (hlast : ∀ b, f.getLast? = some b → b.isAlpha = true) :
    collapseNL (f ++ ['\n', ' ', ' ', ' ', '-']) = f ++ [' ', '-'] := by
  rw [collapseNL, List.foldl_append, foldl_collapse_plain hAS hne hlast]
  have h1 : collapseStep (f.reverse, [], false) '\n' =
      (f.reverse, ['\n'], true) := by
    rw [collapseStep, if_pos (by decide)]
    simp
  have h2 : collapseStep (f.reverse, ['\n'], true) ' ' =
      (f.reverse, [' ', '\n'], true) := by
    rw [collapseStep, if_pos (by decide)]
    simp
  have h3 : collapseStep (f.reverse, [' ', '\n'], true) ' ' =
      (f.reverse, [' ', ' ', '\n'], true) := by
    rw [collapseStep, if_pos (by decide)]
    simp
  have h4 : collapseStep (f.reverse, [' ', ' ', '\n'], true) ' ' =
      (f.reverse, [' ', ' ', ' ', '\n'], true) := by
    rw [collapseStep, if_pos (by decide)]
    simp
  have h5 : collapseStep (f.reverse, [' ', ' ', ' ', '\n'], true) '-' =
      ('-' :: ' ' :: f.reverse, [], false) := by
    rw [collapseStep, if_neg (by decide)]
    simp
  rw [List.foldl_cons, h1, List.foldl_cons, h2, List.foldl_cons, h3,
    List.foldl_cons, h4, List.foldl_cons, h5, List.foldl_nil]
  simp

lemma stripDash_plain {f : List Char}
    (hAS : ∀ c ∈ f, c.isAlpha = true ∨ c = ' ') (hne : f ≠ [])
    (hlast : ∀ b, f.getLast? = some b → b.isAlpha = true) :
    stripDash f = f := by
  rw [stripDash, foldl_dash_plain hAS hne hlast]
  simp

lemma stripDash_sp_dash {f : List Char}
    (hAS : ∀ c ∈ f, c.isAlpha = true ∨ c = ' ') (hne : f ≠ [])
    (hlast : ∀ b, f.getLast? = some b → b.isAlpha = true) :
    stripDash (f ++ [' ', '-']) = f := by
  rw [stripDash, List.foldl_append, foldl_dash_plain hAS hne hlast]
  have h1 : dashStep (f.reverse, [], false) ' ' = (f.reverse, [' '], false) := by
    rw [dashStep, if_neg (by simp), if_neg (by decide), if_pos (by decide)]
  have h2 : dashStep (f.reverse, [' '], false) '-' = (f.reverse, [], true) := by
    rw [dashStep, if_neg (by simp), if_pos (by decide)]
  rw [List.foldl_cons, h1, List.foldl_cons, h2, List.foldl_nil]
  simp

lemma trimL_plain {f : List Char} (hne : f ≠ [])
    (hhead : ∀ c rest, f = c :: rest → c.isAlpha = true)
    (hlast : ∀ b, f.getLast? = some b → b.isAlpha = true) :
    trimL f = f := by
  obtain ⟨e0, f', hf⟩ : ∃ e0 f', f = e0 :: f' := by
    cases hx : f with
    | nil => exact absurd hx hne
    | cons a b => exact ⟨a, b, rfl⟩
  obtain ⟨b, hb⟩ := getLast?_of_ne_nil hne
  exact trimL_alpha_ends hf (hhead e0 f' hf) hb (hlast b hb)

lemma cleanValue_dash {f : List Char}
    (hAS : ∀ c ∈ f, c.isAlpha = true ∨ c = ' ') (hne : f ≠ [])
    (hhead : ∀ c rest, f = c :: rest → c.isAlpha = true)
    (hlast : ∀ b, f.getLast? = some b → b.isAlpha = true) :
    cleanValue (f ++ ['\n', ' ', ' ', ' ', '-']) = f := by
  rw [cleanValue, collapseNL_dash_tail hAS hne hlast,
    show f ++ [' ', '-'] = f ++ [' ', '-'] from rfl,
    stripDash_sp_dash hAS hne hlast, trimL_plain hne hhead hlast]

lemma cleanValue_plain {f : List Char}
    (hAS : ∀ c ∈ f, c.isAlpha = true ∨ c = ' ') (hne : f ≠ [])
    (hhead : ∀ c rest, f = c :: rest → c.isAlpha = true)
    (hlast : ∀ b, f.getLast? = some b → b.isAlpha = true) :
    cleanValue f = f := by
  rw [cleanValue, collapseNL_plain hAS hne hlast, stripDash_plain hAS hne hlast,
    trimL_plain hne hhead hlast]

lemma leadType_arm {ty : List Char} (hne : ty ≠ [])
    (hal : ∀ c ∈ ty, c.isAlpha = true) (rest : List Char) :
    leadTypeMatch ('*' :: '*' :: (ty ++ ('*' :: '*' :: (':' :: rest)))) =
      some ty := by
  have hpred : ∀ c ∈ ty, (fun c => !(c == '*' || c == ':')) c = true := by
    intro c hc
    have h1 : c ≠ '*' := class_ne (hal c hc) (by decide)
    have h2 : c ≠ ':' := class_ne (hal c hc) (by decide)
    simp [beq_eq_false_iff_ne.mpr h1, beq_eq_false_iff_ne.mpr h2]
  have hdw : ('*' :: '*' :: (ty ++ ('*' :: '*' :: (':' :: rest)))).dropWhile
      isWsChar = '*' :: '*' :: (ty ++ ('*' :: '*' :: (':' :: rest))) := by
    rw [List.dropWhile_cons, if_neg (by decide)]
  have hcap : (ty ++ ('*' :: '*' :: (':' :: rest))).takeWhile
      (fun c => !(c == '*' || c == ':')) = ty := by
    rw [takeWhile_append_all hpred, List.takeWhile_cons, if_neg (by decide),
      List.append_nil]
  have hdrop : (ty ++ ('*' :: '*' :: (':' :: rest))).dropWhile
      (fun c => !(c == '*' || c == ':')) = '*' :: '*' :: (':' :: rest) := by
    rw [dropWhile_append_all hpred, List.dropWhile_cons, if_neg (by decide)]
  rw [leadTypeMatch, hdw]
  split
  · rename_i r2 heq
    obtain rfl : ty ++ ('*' :: '*' :: (':' :: rest)) = r2 := by
      simpa using heq
    simp only [hcap, hdrop]
    rw [if_neg (by simp [hne])]
    rw [show (':' :: rest).dropWhile isWsChar = ':' :: rest from by
      rw [List.dropWhile_cons, if_neg (by decide)]]
    rfl
  · rename_i hno
    exact absurd rfl (hno (ty ++ ('*' :: '*' :: (':' :: rest))))

lemma leadType_of_block {q : ItemParams} (hf : ItemFacts q) :
    leadTypeMatch (blockText q) = some q.ty :=
  leadType_arm hf.tyNe hf.tyAlpha _

lemma ty_ne_ctPlain {ty : List Char} (hal : ∀ c ∈ ty, c.isAlpha = true) :
    ty ≠ ctPlainLit := by
  intro he
  have hsp : (' ' : Char) ∈ ty := by rw [he]; decide
  exact absurd (hal ' ' hsp) (by decide)

lemma numberedTypeOf_block {q : ItemParams} (hf : ItemFacts q) :
    numberedTypeOf (blockText q) = q.ty := by
  have htrim : trimL q.ty = q.ty := by
    refine trimL_plain hf.tyNe ?_ ?_
    · intro c rest hc
      exact hf.tyAlpha c (by rw [hc]; exact List.mem_cons_self _ _)
    · intro b hb
      exact hf.tyAlpha b (lastMem hb)
  rw [numberedTypeOf, block_no_ct hf]
  simp only [Bool.false_eq_true, if_false]
  rw [leadType_of_block hf]
  simp only [List.isEmpty_nil, if_true, htrim]
  rw [if_neg (ty_ne_ctPlain hf.tyAlpha)]
  rw [if_neg (by simp [hf.tyNe, ty_ne_ctPlain hf.tyAlpha])]

lemma parseBlock_of_item {q : ItemParams} (hf : ItemFacts q) :
    parseBlockNumbered (blockText q) = expectedComp q := by
  rw [parseBlockNumbered, numberedTypeOf_block hf, conf_of_block hf,
    det_of_block hf, cnd_of_block hf, rsk_of_block hf]
  dsimp only
  rw [cleanValue_dash hf.detAS hf.detNe hf.detHead hf.detLast,
    cleanValue_dash hf.cndAS hf.cndNe hf.cndHead hf.cndLast,
    cleanValue_plain hf.rskAS hf.rskNe hf.rskHead hf.rskLast]
  rfl

lemma numberedItemAt_arm {ty : List Char} (hne : ty ≠ [])
    (hal : ∀ c ∈ ty, c.isAlpha = true) (rest : List Char) :
    numberedItemAt
      ('1' :: '.' :: ' ' :: '*' :: '*' ::
        (ty ++ ('*' :: '*' :: (':' :: rest)))) = true := by
  have hpred : ∀ c ∈ ty, (fun c => !(c == '*')) c = true := by
    intro c hc
    have hcs : c ≠ '*' :=
      class_ne (hal c hc) (show Char.isAlpha '*' = false from by decide)
    simp [beq_eq_false_iff_ne.mpr hcs]
  have hcap : (ty ++ ('*' :: '*' :: (':' :: rest))).takeWhile
      (fun c => !(c == '*')) = ty := by
    rw [takeWhile_append_all hpred, List.takeWhile_cons, if_neg (by decide),
      List.append_nil]
  have hdrop : (ty ++ ('*' :: '*' :: (':' :: rest))).dropWhile
      (fun c => !(c == '*')) = '*' :: '*' :: (':' :: rest) := by
    rw [dropWhile_append_all hpred, List.dropWhile_cons, if_neg (by decide)]
  show (!((ty ++ ('*' :: '*' :: (':' :: rest))).takeWhile
        (fun c => !(c == '*'))).isEmpty &&
      (match (ty ++ ('*' :: '*' :: (':' :: rest))).dropWhile
          (fun c => !(c == '*')) with
        | '*' :: '*' :: ':' :: _ => true
        | _ => false)) = true
  rw [hcap, hdrop]
  simp [hne]

lemma hasNumbered_render (p1 p2 p3 : ItemParams) (h1 : ItemFacts p1) :
    hasNumberedList (renderThree p1 p2 p3) = true := by
  rw [show renderThree p1 p2 p3 =
    '1' :: ('.' :: (' ' :: (blockText p1 ++
      (renderItem '2' p2 ++ renderItem '3' p3)))) from rfl]
  rw [hasNumberedList]
  have hshape : blockText p1 ++ (renderItem '2' p2 ++ renderItem '3' p3) =
      '*' :: '*' :: (p1.ty ++ (chTyClose ++ ((keyConfT ++ (p1.conf ++ (chPct ++
        (keyDetT ++ (p1.det ++ (chMid ++ (keyCndT ++ (p1.cnd ++ (chMid ++
          (keyRskT ++ (p1.rsk ++ ['\n', '\n']))))))))))) ++
            (renderItem '2' p2 ++ renderItem '3' p3)))) := by
    rw [blockText_chunks]
    simp [List.append_assoc]
  rw [hshape]
  have hnum : numberedItemAt
      ('1' :: '.' :: ' ' :: '*' :: '*' ::
        (p1.ty ++ (chTyClose ++ ((keyConfT ++ (p1.conf ++ (chPct ++
          (keyDetT ++ (p1.det ++ (chMid ++ (keyCndT ++ (p1.cnd ++ (chMid ++
            (keyRskT ++ (p1.rsk ++ ['\n', '\n']))))))))))) ++
              (renderItem '2' p2 ++ renderItem '3' p3))))) = true :=
    numberedItemAt_arm h1.tyNe h1.tyAlpha _
  rw [hnum, Bool.true_or]

lemma chunk_chars {g : List Char}
    (hg : g.all (fun c => !(c == apos) && !(c == ',')) = true) :
    ∀ x ∈ g, x ≠ apos ∧ x ≠ ',' := by
  intro x hx
  have hh := (List.all_eq_true.mp hg) x hx
  simp only [Bool.and_eq_true, Bool.not_eq_true', beq_eq_false_iff_ne] at hh
  exact hh

lemma blockText_chars {q : ItemParams} (hf : ItemFacts q) :
    ∀ x ∈ blockText q, x ≠ apos ∧ x ≠ ',' := by
  intro x hx
  rw [blockText_chunks] at hx
  simp only [List.mem_cons, List.mem_append, List.mem_singleton,
    List.not_mem_nil, or_false] at hx
  have hAS : ∀ {g : List Char}, (∀ c ∈ g, c.isAlpha = true ∨ c = ' ') →
      x ∈ g → x ≠ apos ∧ x ≠ ',' := by
    intro g hg hxg
    rcases hg x hxg with ha | h2
    · exact ⟨class_ne ha (by decide), class_ne ha (by decide)⟩
    · rw [h2]
      exact ⟨by decide, by decide⟩
  rcases hx with rfl | rfl | hx | hx | hx | hx | hx | hx | hx | hx | hx | hx |
      hx | hx | hx | hx
  · exact ⟨by decide, by decide⟩
  · exact ⟨by decide, by decide⟩
  · exact ⟨class_ne (hf.tyAlpha x hx) (by decide),
      class_ne (hf.tyAlpha x hx) (by decide)⟩
  · exact chunk_chars (by decide) x hx
  · exact chunk_chars (by decide) x hx
  · exact ⟨class_ne (hf.confDigit x hx) (by decide),
      class_ne (hf.confDigit x hx) (by decide)⟩
  · exact chunk_chars (by decide) x hx
  · exact chunk_chars (by decide) x hx
  · exact hAS hf.detAS hx
  · exact chunk_chars (by decide) x hx
  · exact chunk_chars (by decide) x hx
  · exact hAS hf.cndAS hx
  · exact chunk_chars (by decide) x hx
  · exact chunk_chars (by decide) x hx
  · exact hAS hf.rskAS hx
  · rcases hx with rfl | rfl
    · exact ⟨by decide, by decide⟩
    · exact ⟨by decide, by decide⟩

lemma render_clean (p1 p2 p3 : ItemParams) (h1 : ItemFacts p1)
    (h2 : ItemFacts p2) (h3 : ItemFacts p3) :
    cleanDisclaimers (renderThree p1 p2 p3) = renderThree p1 p2 p3 := by
  have hchars : ∀ x ∈ renderThree p1 p2 p3, x ≠ apos ∧ x ≠ ',' := by
    intro x hx
    rw [renderThree, renderItem, renderItem, renderItem] at hx
    simp only [List.mem_cons, List.mem_append] at hx
    rcases hx with (rfl | rfl | rfl | hx) |
        ((rfl | rfl | rfl | hx) | (rfl | rfl | rfl | hx))
    · exact ⟨by decide, by decide⟩
    · exact ⟨by decide, by decide⟩
    · exact ⟨by decide, by decide⟩
    · exact blockText_chars h1 x hx
    · exact ⟨by decide, by decide⟩
    · exact ⟨by decide, by decide⟩
    · exact ⟨by decide, by decide⟩
    · exact blockText_chars h2 x hx
    · exact ⟨by decide, by decide⟩
    · exact ⟨by decide, by decide⟩
    · exact ⟨by decide, by decide⟩
    · exact blockText_chars h3 x hx
  exact cleanDisclaimers_eq_self (fun x hx => (hchars x hx).1)
    (fun x hx => (hchars x hx).2)

lemma extract_render (p1 p2 p3 : ItemParams)
    (h : validThree p1 p2 p3 = true) :
    extractComponents (renderThree p1 p2 p3) =
      [expectedComp p1, expectedComp p2, expectedComp p3] := by
  simp only [validThree, Bool.and_eq_true, Bool.not_eq_true'] at h
  obtain ⟨⟨⟨⟨⟨hv1, hv2⟩, hv3⟩, hd12⟩, hd13⟩, hd23⟩ := h
  have h1 := itemFacts_of_valid hv1
  have h2 := itemFacts_of_valid hv2
  have h3 := itemFacts_of_valid hv3
  have hclean := render_clean p1 p2 p3 h1 h2 h3
  have hhn := hasNumbered_render p1 p2 p3 h1
  have hsplit := splitNumbered_renderThree p1 p2 p3 h1 h2 h3
  have hk1 : keepComp (expectedComp p1) = true := h1.keep
  have hk2 : keepComp (expectedComp p2) = true := h2.keep
  have hk3 : keepComp (expectedComp p3) = true := h3.keep
  have hdup12 : isDupOf (expectedComp p1) (expectedComp p2) = false := hd12
  have hdup13 : isDupOf (expectedComp p1) (expectedComp p3) = false := hd13
  have hdup23 : isDupOf (expectedComp p2) (expectedComp p3) = false := hd23
  rw [extractComponents]
  rw [hclean, hhn]
  simp only [if_true]
  rw [hsplit]
  simp only [List.map_cons, List.map_nil]
  rw [parseBlock_of_item h1, parseBlock_of_item h2, parseBlock_of_item h3]
  simp only [List.isEmpty_cons, Bool.false_eq_true, if_false]
  simp only [List.filter_cons, List.filter_nil, hk1, hk2, hk3, if_true]
  rw [dedupComponents]
  simp only [List.foldl_cons, List.foldl_nil, List.any_nil, List.any_cons,
    hdup12, hdup13, hdup23, Bool.false_or, Bool.false_eq_true, if_false]
  simp [hdup12, hdup13, hdup23]

/-- C5: the vision-reply parser, applied to a well-formed three-item numbered
markdown block rendered from any three well-formed items (plain type names
that pass the parser's own filters, digit confidences, plain text fields,
pairwise non-duplicate types), yields exactly the three expected components
with populated type, confidence, details, condition and risks; and applied to
the disclaimer-only reply it yields the empty component list (extraction is a
total function, so no exception is possible). -/
theorem c5_parser_render_and_disclaimer (p1 p2 p3 : ItemParams)
    (h : validThree p1 p2 p3 = true) :
    extractComponents (renderThree p1 p2 p3) =
      [expectedComp p1, expectedComp p2, expectedComp p3] ∧
    extractComponents disclaimerReply = [] :=
  ⟨extract_render p1 p2 p3 h, by decide⟩

/-- Concrete first item for the C5 witness. -/
def wItem1 : ItemParams :=
  ⟨"Transformer".data, "95".data, "Vegetation dense".data, "Bon etat".data,
    "Risque de contact".data⟩

/-- Concrete second item for the C5 witness. -/
def wItem2 : ItemParams :=
  ⟨"Isolateur".data, "80".data, "Ceramique fendue".data, "Etat moyen".data,
    "Arc electrique".data⟩

/-- Concrete third item for the C5 witness. -/
def wItem3 : ItemParams :=
  ⟨"Fusible".data, "72".data, "Corrosion visible".data, "Etat degrade".data,
    "Surchauffe possible".data⟩

/-- Witness for C5 at a concrete well-formed three-item reply. -/
theorem c5_parser_render_and_disclaimer_witness :
    validThree wItem1 wItem2 wItem3 = true ∧
    (extractComponents (renderThree wItem1 wItem2 wItem3) =
      [expectedComp wItem1, expectedComp wItem2, expectedComp wItem3] ∧
    extractComponents disclaimerReply = []) :=
  ⟨by decide, c5_parser_render_and_disclaimer wItem1 wItem2 wItem3 (by decide)⟩

end Energia
